import Mathlib

/-!
Verification of the bot-arena match simulation engine: grid generation,
A* pathfinding, the per-move collision/validation pipeline, round
completion, elimination, and prize arithmetic.  Definitions are shallow
embeddings of the TypeScript sources (pathfindingService, gameService,
collisionService, and the prize helper in utils).
-/

namespace BotArena

/-- A grid cell coordinate.  Coordinates are integers so that
out-of-bounds proposals (negative coordinates) are representable, as in
the source where positions are plain JS numbers. -/
structure Pos where
  x : Int
  y : Int
deriving DecidableEq, Repr

/-- A grid is a row-major list of rows of cell codes:
0 = empty, 1 = obstacle, 2 = start, 3 = end. -/
abbrev Grid := List (List Nat)

/-- Length of row 0, as in the source's repeated use of grid[0].length.
(The source only evaluates grid[0].length after establishing the grid is
nonempty, thanks to short-circuit evaluation; for an empty grid this
model returns 0, a branch the source never reaches.) -/
def headLen (grid : Grid) : Nat :=
  match grid with
  | [] => 0
  | row :: _ => row.length

/-- Cell lookup grid[y][x]; none models the JS value undefined obtained
for an index outside the array (negative or too large). -/
def cellAt (grid : Grid) (x y : Int) : Option Nat :=
  if x < 0 ∨ y < 0 then none
  else (grid.get? y.toNat).bind fun row => row.get? x.toNat

/-- isWalkable from pathfindingService: in bounds (bounds taken from
grid.length and grid[0].length) and the cell is not an obstacle.  A cell
read that yields undefined (ragged row) compares !== 1, hence walkable,
exactly as in JS. -/
def isWalkable (grid : Grid) (x y : Int) : Bool :=
  if x < 0 ∨ y < 0 ∨ (grid.length : Int) ≤ y then false
  else if (headLen grid : Int) ≤ x then false
  else cellAt grid x y ≠ some 1

/-- Manhattan distance heuristic between two positions. -/
def heuristic (a b : Pos) : Nat :=
  (a.x - b.x).natAbs + (a.y - b.y).natAbs

/-- isValidMove from pathfindingService: destination is exactly one
cardinal step away. -/
def isValidMove (a b : Pos) : Bool :=
  let dx := (a.x - b.x).natAbs
  let dy := (a.y - b.y).natAbs
  (dx = 1 ∧ dy = 0) ∨ (dx = 0 ∧ dy = 1)

/-- Specification-side adjacency: one cardinal step. -/
def Adjacent (a b : Pos) : Prop :=
  (a.x - b.x).natAbs + (a.y - b.y).natAbs = 1

instance : DecidablePred fun p : Pos × Pos => Adjacent p.1 p.2 :=
  fun p => inferInstanceAs
    (Decidable ((p.1.x - p.2.x).natAbs + (p.1.y - p.2.y).natAbs = 1))

instance (a b : Pos) : Decidable (Adjacent a b) :=
  inferInstanceAs (Decidable ((a.x - b.x).natAbs + (a.y - b.y).natAbs = 1))

/-- Executable adjacency check along a list, used to decide Chain'. -/
def adjChainB : List Pos → Bool
  | [] => true
  | [_] => true
  | a :: b :: rest => decide (Adjacent a b) && adjChainB (b :: rest)

theorem adjChainB_iff : ∀ l : List Pos, adjChainB l = true ↔ l.Chain' Adjacent
  | [] => by simp [adjChainB]
  | [a] => by simp [adjChainB]
  | a :: b :: rest => by
    rw [List.chain'_cons, ← adjChainB_iff (b :: rest)]
    simp [adjChainB]

instance (l : List Pos) : Decidable (l.Chain' Adjacent) :=
  decidable_of_iff (adjChainB l = true) (adjChainB_iff l)

/-- A valid route: nonempty, starts at `s`, ends at `t`, every cell
walkable, consecutive cells cardinally adjacent. -/
def ValidPath (grid : Grid) (l : List Pos) (s t : Pos) : Prop :=
  l.head? = some s ∧ l.getLast? = some t ∧
    (∀ p ∈ l, isWalkable grid p.x p.y = true) ∧ l.Chain' Adjacent

instance (grid : Grid) (l : List Pos) (s t : Pos) :
    Decidable (ValidPath grid l s t) :=
  inferInstanceAs (Decidable (l.head? = some s ∧ l.getLast? = some t ∧
    (∀ p ∈ l, isWalkable grid p.x p.y = true) ∧ l.Chain' Adjacent))

/-- A search node.  The source's PathNode carries a parent pointer; a
parent is always an already-closed node, whose own parent chain is never
mutated afterwards, so the chain denotes a fixed list of positions.  We
represent that chain directly as the accumulated `path` (the value
reconstructPath would produce), which is observationally equivalent. -/
structure PathNode where
  x : Int
  y : Int
  g : Nat
  h : Nat
  f : Nat
  path : List Pos
deriving Repr

def PathNode.pos (n : PathNode) : Pos := ⟨n.x, n.y⟩

/-- The four neighbor candidate positions in source order
(Up, Down, Left, Right), filtered by walkability. -/
def getNeighbors (grid : Grid) (p : Pos) : List Pos :=
  [⟨p.x, p.y - 1⟩, ⟨p.x, p.y + 1⟩, ⟨p.x - 1, p.y⟩, ⟨p.x + 1, p.y⟩].filter
    fun q => isWalkable grid q.x q.y

/-- findLowestF's scan: walk the remainder of the open list carrying the
best node, its index, and the index of the node under examination. -/
def findLowestFGo : List PathNode → PathNode → Nat → Nat → Nat
  | [], _, bestIdx, _ => bestIdx
  | n :: rest, best, bestIdx, i =>
    if n.f < best.f then findLowestFGo rest n i (i + 1)
    else if n.f = best.f ∧ n.h < best.h then findLowestFGo rest n i (i + 1)
    else findLowestFGo rest best bestIdx (i + 1)

/-- Index of the open node with the lowest f score (ties broken toward
the smaller h), as in the source. -/
def findLowestF : List PathNode → Nat
  | [] => 0
  | n :: rest => findLowestFGo rest n 0 1

/-- One relaxation step for a single neighbor position, mirroring the
body of the neighbor loop in findPath: skip closed positions; otherwise
either push a fresh node or improve an existing open node when the
tentative cost is strictly better. -/
def relaxOne (endP : Pos) (closed : List Pos) (cur : PathNode)
    (opens : List PathNode) (np : Pos) : List PathNode :=
  if np ∈ closed then opens
  else
    let tentativeG := cur.g + 1
    match opens.findIdx? (fun n => n.x = np.x ∧ n.y = np.y) with
    | none =>
        let h := heuristic np endP
        opens ++ [⟨np.x, np.y, tentativeG, h, tentativeG + h,
                   cur.path ++ [np]⟩]
    | some k =>
        let old := opens.getD k ⟨0, 0, 0, 0, 0, []⟩
        if tentativeG < old.g then
          opens.set k ⟨old.x, old.y, tentativeG, old.h, tentativeG + old.h,
                        cur.path ++ [np]⟩
        else opens

/-- Relax all neighbors of the current node. -/
def relaxAll (grid : Grid) (endP : Pos) (closed : List Pos)
    (cur : PathNode) (opens : List PathNode) : List PathNode :=
  (getNeighbors grid cur.pos).foldl (relaxOne endP closed cur) opens

/-- The A* main loop.  The source's while-loop terminates because every
iteration moves one new position into the closed set and closed
positions are never re-opened; `fuel` makes that bound explicit.  Fuel
exhaustion returns the empty path and is proved unreachable whenever a
route exists. -/
def astarLoop (grid : Grid) (endP : Pos) :
    Nat → List PathNode → List Pos → List Pos
  | 0, _, _ => []
  | _ + 1, [], _ => []
  | fuel + 1, o :: os, closed =>
    let opens := o :: os
    let i := findLowestF opens
    let cur := opens.getD i ⟨0, 0, 0, 0, 0, []⟩
    if cur.x = endP.x ∧ cur.y = endP.y then cur.path
    else
      let opens' := opens.eraseIdx i
      let closed' := cur.pos :: closed
      astarLoop grid endP fuel (relaxAll grid endP closed' cur opens') closed'

/-- findPath from pathfindingService: validate the endpoints, seed the
open set with the start node, and run the loop. -/
def findPath (grid : Grid) (start endP : Pos) : List Pos :=
  if ¬ isWalkable grid start.x start.y ∨ ¬ isWalkable grid endP.x endP.y then []
  else
    let h := heuristic start endP
    astarLoop grid endP (grid.length * headLen grid + 1)
      [⟨start.x, start.y, 0, h, h, [start]⟩] []

/-- getPathLength: path cell count minus one, or -1 when no path. -/
def getPathLength (grid : Grid) (start endP : Pos) : Int :=
  let path := findPath grid start endP
  if path.length > 0 then (path.length : Int) - 1 else -1

/-- hasPath: a route exists. -/
def hasPath (grid : Grid) (start endP : Pos) : Bool :=
  findPath grid start endP ≠ []

end BotArena

namespace BotArena

/-! ## Collision service -/

/-- Fixed collision penalty in seconds (collisionService). -/
def COLLISION_PENALTY_SECONDS : Nat := 10

/-- checkObstacleCollision: out of bounds is handled separately (false);
otherwise the cell is compared === 1.  A ragged-row read (undefined)
compares false, as in JS. -/
def checkObstacleCollision (grid : Grid) (p : Pos) : Bool :=
  if p.y < 0 ∨ (grid.length : Int) ≤ p.y ∨ p.x < 0 ∨ (headLen grid : Int) ≤ p.x
  then false
  else cellAt grid p.x p.y = some 1

/-- checkBoundaryCollision: position outside the rows × cols rectangle. -/
def checkBoundaryCollision (p : Pos) (rows cols : Nat) : Bool :=
  p.x < 0 ∨ (cols : Int) ≤ p.x ∨ p.y < 0 ∨ (rows : Int) ≤ p.y

/-- checkBotCollision: the first listed bot other than the mover that
already occupies the target cell, if any.  The list order models the
Map's insertion-order iteration. -/
def checkBotCollision (positions : List (String × Pos)) (botId : String)
    (newPos : Pos) : Option String :=
  (positions.find? fun bp => bp.1 ≠ botId ∧ bp.2 = newPos).map (·.1)

/-- calculateTotalPenalty: collisions × penalty seconds. -/
def calculateTotalPenalty (collisionCount : Nat) : Nat :=
  collisionCount * COLLISION_PENALTY_SECONDS

/-! ## Insertion-ordered string-keyed maps

JS `Map` values are modelled as association lists in insertion order:
`get` finds the first entry, `set` overwrites an existing key in place
and otherwise appends. -/

def mapGet {α : Type} (m : List (String × α)) (k : String) : Option α :=
  (m.find? (·.1 = k)).map (·.2)

def mapSet {α : Type} (m : List (String × α)) (k : String) (v : α) :
    List (String × α) :=
  if (m.find? (·.1 = k)).isSome then
    m.map fun e => if e.1 = k then (k, v) else e
  else m ++ [(k, v)]

/-! ## Game service: round runtime state and move processing -/

/-- The in-memory GameState of gameService (the Round Runtime State). -/
structure GameState where
  grid : Grid
  botPositions : List (String × Pos)
  endPosition : Pos
  startTime : Nat
  moveCounters : List (String × Nat)
  botFinishTimes : List (String × Nat)
deriving DecidableEq, Repr

/-- A persisted move-log entry (the prisma.move.create payload). -/
structure MoveRec where
  botId : String
  level : Nat
  fromX : Int
  fromY : Int
  toX : Int
  toY : Int
  moveNumber : Nat
  isCollision : Bool
deriving DecidableEq, Repr

/-- The value processMove resolves with (success / collision / blocked),
or the error it rejects with. -/
inductive MoveResult where
  | err (msg : String)
  | collision (penalty : Nat) (totalCollisions : Nat) (position : Pos)
      (moveNumber : Nat)
  | blocked (blockedBy : String) (position : Pos) (moveNumber : Nat)
  | ok (position : Pos) (moveNumber : Nat) (finished : Bool)
      (finishTime : Option Nat)
deriving DecidableEq, Repr

/-- The full effect of one processMove call: the round runtime state,
the persisted per-participant collision counters (botGame.collisions,
incremented by CollisionService.handleCollision), and the persisted
move log. -/
structure MoveOutcome where
  state : GameState
  colls : List (String × Nat)
  log : List MoveRec
  result : MoveResult
deriving DecidableEq, Repr

/-- processMove from gameService, with the database round-trips made
explicit: `level` is the looked-up game.currentLevel, `now` the value of
Date.now(), `colls` the persisted collision counters and `log` the
persisted move records. -/
def processMove (st : GameState) (colls : List (String × Nat))
    (log : List MoveRec) (level : Nat) (now : Nat) (botId : String)
    (toX toY : Int) : MoveOutcome :=
  match mapGet st.botPositions botId with
  | none => ⟨st, colls, log, .err "Bot is not active in this game"⟩
  | some currentPosition =>
    if (mapGet st.botFinishTimes botId).isSome then
      ⟨st, colls, log, .err "Bot has already reached the finish"⟩
    else
      let newPosition : Pos := ⟨toX, toY⟩
      if ¬ isValidMove currentPosition newPosition then
        ⟨st, colls, log,
          .err "Invalid move: must move to an adjacent cell (up/down/left/right)"⟩
      else if checkBoundaryCollision newPosition st.grid.length
          (headLen st.grid) then
        ⟨st, colls, log, .err "Invalid move: out of bounds"⟩
      else
        let moveNumber := (mapGet st.moveCounters botId).getD 0 + 1
        let counters' := mapSet st.moveCounters botId moveNumber
        let st₁ := { st with moveCounters := counters' }
        if checkObstacleCollision st.grid newPosition then
          let newColls := (mapGet colls botId).getD 0 + 1
          let colls' := mapSet colls botId newColls
          let rec' : MoveRec := ⟨botId, level, currentPosition.x,
            currentPosition.y, toX, toY, moveNumber, true⟩
          ⟨st₁, colls', log ++ [rec'],
            .collision COLLISION_PENALTY_SECONDS newColls currentPosition
              moveNumber⟩
        else
          let unfinished := st.botPositions.filter
            fun e => ¬ (mapGet st.botFinishTimes e.1).isSome
          match checkBotCollision unfinished botId newPosition with
          | some blocker =>
            ⟨st₁, colls, log, .blocked blocker currentPosition moveNumber⟩
          | none =>
            let positions' := mapSet st.botPositions botId newPosition
            let rec' : MoveRec := ⟨botId, level, currentPosition.x,
              currentPosition.y, toX, toY, moveNumber, false⟩
            let log' := log ++ [rec']
            if newPosition = st.endPosition then
              let finishTime := now - st.startTime
              let ft' := mapSet st.botFinishTimes botId finishTime
              ⟨{ st₁ with botPositions := positions', botFinishTimes := ft' },
                colls, log',
                .ok newPosition moveNumber true (some finishTime)⟩
            else
              ⟨{ st₁ with botPositions := positions' }, colls, log',
                .ok newPosition moveNumber false none⟩

/-- processMove's very first check: no round runtime state for the game
at all (activeGames.get returned undefined). -/
def processMoveOpt (st? : Option GameState) (colls : List (String × Nat))
    (log : List MoveRec) (level : Nat) (now : Nat) (botId : String)
    (toX toY : Int) : Option GameState × List (String × Nat) ×
      List MoveRec × MoveResult :=
  match st? with
  | none => (none, colls, log,
      .err "Game state not found. Level may not have started.")
  | some st =>
    let o := processMove st colls log level now botId toX toY
    (some o.state, o.colls, o.log, o.result)

end BotArena

namespace BotArena

/-! ## Round completion and elimination -/

/-- A persisted participant row (botGame) as used by checkLevelComplete
and eliminateBots.  `botId` doubles as the row key (one game). -/
structure Participant where
  botId : String
  position : Nat
  collisions : Nat
  eliminated : Bool
  eliminatedAt : Option Nat
deriving DecidableEq, Repr

/-- ELIMINATION_MAP from gameService (`ELIMINATION_MAP[level] || 0`):
level 1 eliminates the bottom 2, level 2 the bottom 4, level 3 the
bottom 3; any other level 0. -/
def ELIMINATION_MAP (level : Nat) : Nat :=
  match level with
  | 1 => 2
  | 2 => 4
  | 3 => 3
  | _ => 0

/-- The body of checkLevelComplete's timeout loop: a participant who
already has a finish time is left alone, anyone else is assigned the
sentinel. -/
def sentinelStep (sentinel : Nat) (ft : List (String × Nat)) (p : Participant) :
    List (String × Nat) :=
  if (mapGet ft p.botId).isSome then ft else mapSet ft p.botId sentinel

/-- checkLevelComplete: complete when every non-eliminated participant
has a finish time or the elapsed time reached the arena's time budget;
on timeout unfinished participants receive the sentinel finish time.
`now` models Date.now() and `timeLimit` the arena's budget in seconds.
(In the source `elapsedMs = now - startTime` on a monotone clock; `now`
is at least `startTime` whenever the state exists.) -/
def checkLevelComplete (st : GameState) (parts : List Participant)
    (timeLimit : Nat) (now : Nat) : Bool × GameState :=
  let active := parts.filter fun p => !p.eliminated
  let allFinished := active.all fun p => (mapGet st.botFinishTimes p.botId).isSome
  let elapsedMs := now - st.startTime
  let timeLimitMs := timeLimit * 1000
  let timedOut := decide (timeLimitMs ≤ elapsedMs)
  if allFinished || timedOut then
    if timedOut then
      let ft' := active.foldl (sentinelStep (timeLimitMs + 999999))
        st.botFinishTimes
      (true, { st with botFinishTimes := ft' })
    else (true, st)
  else (false, st)

/-- A ranking entry of eliminateBots.  `totalTime` is a JS number that
can be Infinity, modelled as `WithTop Nat`. -/
structure RankEntry where
  botId : String
  totalTime : WithTop Nat
  collisions : Nat
deriving DecidableEq

/-- `(botFinishTimes.get(botId) || Infinity) + penaltyMs`: a missing
finish time — and, JS `||` being falsy-based, a recorded finish time of
exactly 0 — becomes Infinity, then the collision penalty (collisions ×
penalty-seconds × 1000 ms) is added. -/
def rankTime (ft : Option Nat) (collisions : Nat) : WithTop Nat :=
  let finishTime : WithTop Nat :=
    match ft with
    | none => ⊤
    | some t => if t = 0 then ⊤ else (t : Nat)
  finishTime + (collisions * COLLISION_PENALTY_SECONDS * 1000 : Nat)

/-- Array.prototype.slice(0, e) with a possibly negative end index. -/
def jsSliceUpto {α : Type} (l : List α) (e : Int) : List α :=
  l.take (if e < 0 then ((l.length : Int) + e).toNat else e.toNat)

/-- Array.prototype.slice(s) with a possibly negative start index. -/
def jsSliceFrom {α : Type} (l : List α) (s : Int) : List α :=
  l.drop (if s < 0 then ((l.length : Int) + s).toNat else s.toNat)

/-- Result of eliminateBots: the updated participant rows and the
returned {qualified, eliminated, rankings}. -/
structure ElimResult where
  participants : List Participant
  qualified : List String
  eliminatedIds : List String
  rankings : List RankEntry
deriving DecidableEq

/-- eliminateBots from gameService: rank the non-eliminated participants
by finish time plus collision penalty, sort ascending (JS sort with
comparator a.totalTime - b.totalTime is stable and, on this total
preorder — Infinity ties compare 0 via the NaN rule — produces the
unique stable order, modelled by the stable mergeSort), eliminate the
bottom `ELIMINATION_MAP level`, and re-rank the qualified 1..N. -/
def eliminateBots (parts : List Participant)
    (botFinishTimes : List (String × Nat)) (level : Nat) : ElimResult :=
  let active := parts.filter fun p => !p.eliminated
  let eliminationCount := ELIMINATION_MAP level
  let rankings := active.map fun p =>
    RankEntry.mk p.botId (rankTime (mapGet botFinishTimes p.botId) p.collisions)
      p.collisions
  let sorted := rankings.mergeSort fun a b => decide (a.totalTime ≤ b.totalTime)
  let qualifiedCount : Int := (sorted.length : Int) - eliminationCount
  let qualified := jsSliceUpto sorted qualifiedCount
  let eliminatedE := jsSliceFrom sorted qualifiedCount
  let elimIds := eliminatedE.map (·.botId)
  let qualIds := qualified.map (·.botId)
  let parts' := parts.map fun p =>
    if elimIds.contains p.botId then
      { p with eliminated := true, eliminatedAt := some level }
    else
      match qualIds.indexOf? p.botId with
      | some i => { p with position := i + 1 }
      | none => p
  ⟨parts', qualIds, elimIds, sorted⟩

/-! ## Grid generation -/

/-- grid[y][x] = v (callers stay in range, as in the source). -/
def setCell (g : Grid) (x y v : Nat) : Grid :=
  g.set y ((g.getD y []).set x v)

/-- Nat-indexed cell read used by the generator (grid[y][x], with none
for the JS undefined of an out-of-range read). -/
def cellAtN (g : Grid) (x y : Nat) : Option Nat :=
  (g.get? y).bind fun row => row.get? x

/-- The generator's starting grid: rows × cols zeros with start (2) at
(0,0) and end (3) at (cols-1, rows-1). -/
def initialGrid (rows cols : Nat) : Grid :=
  setCell (setCell (List.replicate rows (List.replicate cols 0)) 0 0 2)
    (cols - 1) (rows - 1) 3

/-- The obstacle-placement while-loop of generateGrid.  `fuel` is the
number of attempts still allowed (`maxAttempts - attempts`), `k` the
attempt counter indexing the random stream (two Math.random() draws per
attempt, packaged as a pair), `placed` the obstacles placed so far.  The
source's cols-2 / rows-2 buffer arithmetic is on JS numbers; this model
uses Nat subtraction, which agrees for the 2 ≤ cols, 2 ≤ rows grids the
game configures. -/
def obstacleLoop (rows cols obstacleCount : Nat) (rand : Nat → Nat × Nat) :
    Nat → Nat → Nat → Grid → Grid
  | 0, _, _, g => g
  | fuel + 1, placed, k, g =>
    if obstacleCount ≤ placed then g
    else
      let x := (rand k).1
      let y := (rand k).2
      if cellAtN g x y ≠ some 0 then
        obstacleLoop rows cols obstacleCount rand fuel placed (k + 1) g
      else if (x ≤ 1 ∧ y ≤ 1) ∨ (cols - 2 ≤ x ∧ rows - 2 ≤ y) then
        obstacleLoop rows cols obstacleCount rand fuel placed (k + 1) g
      else
        let g' := setCell g x y 1
        if hasPath g' ⟨0, 0⟩ ⟨(cols : Int) - 1, (rows : Int) - 1⟩ then
          obstacleLoop rows cols obstacleCount rand fuel (placed + 1) (k + 1) g'
        else
          obstacleLoop rows cols obstacleCount rand fuel placed (k + 1) g

/-- generateGrid from gameService, with Math.random() made explicit as a
stream of (x, y) draws (`rand k` is the pair of draws of attempt `k`;
the source guarantees each draw is in range, but like the source's
`grid[y][x] !== 0` guard this model simply skips an attempt whose draw
does not hit an empty cell). -/
def generateGrid (rows cols obstacleCount : Nat) (rand : Nat → Nat × Nat) :
    Grid :=
  obstacleLoop rows cols obstacleCount rand (obstacleCount * 10) 0 0
    (initialGrid rows cols)

/-- startLevel's seeding of the Round Runtime State: grid from
generateGrid (`obstacleCount` is the already level-scaled count), every
active participant at (0,0) with move counter 0, no finish times, the
round clock starting at `now`.  (The source regenerates if findPath
finds no route; the generator is proved below to always return a
solvable grid, so the retry branch is dead.) -/
def startLevel (rows cols obstacleCount : Nat) (rand : Nat → Nat × Nat)
    (activeBots : List String) (now : Nat) : GameState :=
  { grid := generateGrid rows cols obstacleCount rand
    botPositions := activeBots.map fun b => (b, ⟨0, 0⟩)
    endPosition := ⟨(cols : Int) - 1, (rows : Int) - 1⟩
    startTime := now
    moveCounters := activeBots.map fun b => (b, 0)
    botFinishTimes := [] }

/-! ## Prize arithmetic -/

/-- Number.prototype.toFixed(2) on an exact rational: round to the
nearest hundredth, a tie going to the larger numerator (ECMA-262 picks
the larger n). -/
def jsToFixed2 (x : ℚ) : ℚ := (⌊x * 100 + 1 / 2⌋ : ℚ) / 100

/-- calculatePrize from utils/helpers: winner share and creator fee,
each formatted with toFixed(2). -/
def calculatePrize (pool : ℚ) : ℚ × ℚ :=
  (jsToFixed2 (pool * 0.9), jsToFixed2 (pool * 0.1))

/-- The prize computation of completeGame: the returned
{winnerId, prizePool, winnerPrize} with winnerPrize = prizePool * 0.9. -/
def completeGame (prizePool : ℚ) (winnerId : String) : String × ℚ × ℚ :=
  (winnerId, prizePool, prizePool * 0.9)

end BotArena

namespace BotArena

theorem mapGet_cons_pos {α : Type} (e : String × α) (m : List (String × α)) (k : String)
    (he : e.1 = k) : mapGet (e :: m) k = some e.2 := by
  simp [mapGet, he]

theorem mapGet_cons_neg {α : Type} (e : String × α) (m : List (String × α)) (k : String)
    (he : ¬ e.1 = k) : mapGet (e :: m) k = mapGet m k := by
  simp [mapGet, he]

theorem mapGet_mapSet_self {α : Type} (m : List (String × α)) (k : String) (v : α) :
    mapGet (mapSet m k v) k = some v := by
  unfold mapSet
  split
  · rename_i h
    induction m with
    | nil => simp at h
    | cons e rest ih =>
      by_cases he : e.1 = k
      · simp [mapGet, he]
      · rw [List.find?_cons_of_neg _ (by simp [he])] at h
        simp only [List.map_cons, if_neg he, mapGet_cons_neg e _ k he]
        exact ih h
  · induction m with
    | nil => simp [mapGet]
    | cons e rest ih =>
      rename_i h
      by_cases he : e.1 = k
      · rw [List.find?_cons_of_pos _ (by simp [he])] at h; simp at h
      · rw [List.find?_cons_of_neg _ (by simp [he])] at h
        rw [List.cons_append, mapGet_cons_neg e _ k he]
        exact ih h

theorem mapGet_map_overwrite {α : Type} (m : List (String × α)) (k k' : String) (v : α)
    (h : ¬ k = k') :
    mapGet (m.map fun e => if e.1 = k then (k, v) else e) k' = mapGet m k' := by
  induction m with
  | nil => rfl
  | cons e rest ih =>
    by_cases he : e.1 = k
    · rw [List.map_cons, if_pos he, mapGet_cons_neg (k, v) _ k' h,
        mapGet_cons_neg e _ k' (by rw [he]; exact h)]
      exact ih
    · rw [List.map_cons, if_neg he]
      by_cases he' : e.1 = k'
      · rw [mapGet_cons_pos e _ k' he', mapGet_cons_pos e _ k' he']
      · rw [mapGet_cons_neg e _ k' he', mapGet_cons_neg e _ k' he']
        exact ih

theorem mapGet_append_single {α : Type} (m : List (String × α)) (k k' : String) (v : α)
    (h : ¬ k = k') : mapGet (m ++ [(k, v)]) k' = mapGet m k' := by
  induction m with
  | nil => simp [mapGet, h]
  | cons e rest ih =>
    by_cases he' : e.1 = k'
    · rw [List.cons_append, mapGet_cons_pos e _ k' he', mapGet_cons_pos e _ k' he']
    · rw [List.cons_append, mapGet_cons_neg e _ k' he', mapGet_cons_neg e _ k' he']
      exact ih

theorem mapGet_mapSet_ne {α : Type} (m : List (String × α)) (k k' : String) (v : α)
    (h : k' ≠ k) : mapGet (mapSet m k v) k' = mapGet m k' := by
  have hkk : ¬ (k = k') := fun hh => h hh.symm
  unfold mapSet
  split
  · exact mapGet_map_overwrite m k k' v hkk
  · exact mapGet_append_single m k k' v hkk

end BotArena

namespace BotArena

theorem processMove_counter (st : GameState) (colls : List (String × Nat))
    (log : List MoveRec) (level now : Nat) (botId : String) (toX toY : Int)
    (cur : Pos) (hlive : mapGet st.botPositions botId = some cur)
    (hfin : mapGet st.botFinishTimes botId = none)
    (hadj : isValidMove cur ⟨toX, toY⟩ = true)
    (hbound : checkBoundaryCollision ⟨toX, toY⟩ st.grid.length (headLen st.grid) = false) :
    mapGet (processMove st colls log level now botId toX toY).state.moveCounters
      botId = some ((mapGet st.moveCounters botId).getD 0 + 1) := by
  unfold processMove
  rw [hlive]
  simp only [hfin, Option.isSome_none, Bool.false_eq_true, if_false, hadj,
    not_true, hbound, if_true]
  split
  · exact mapGet_mapSet_self _ _ _
  · split
    · exact mapGet_mapSet_self _ _ _
    · split
      · exact mapGet_mapSet_self _ _ _
      · exact mapGet_mapSet_self _ _ _

end BotArena

namespace BotArena

section ProcessMoveBranches

variable (st : GameState) (colls : List (String × Nat)) (log : List MoveRec)
  (level now : Nat) (botId : String) (toX toY : Int)

theorem processMove_eq_err_noBot (h : mapGet st.botPositions botId = none) :
    processMove st colls log level now botId toX toY =
      ⟨st, colls, log, .err "Bot is not active in this game"⟩ := by
  unfold processMove; rw [h]

theorem processMove_eq_err_finished (cur : Pos)
    (hlive : mapGet st.botPositions botId = some cur)
    (hfin : (mapGet st.botFinishTimes botId).isSome = true) :
    processMove st colls log level now botId toX toY =
      ⟨st, colls, log, .err "Bot has already reached the finish"⟩ := by
  unfold processMove; rw [hlive]; simp only [hfin, if_true]

theorem processMove_eq_err_adj (cur : Pos)
    (hlive : mapGet st.botPositions botId = some cur)
    (hfin : mapGet st.botFinishTimes botId = none)
    (hadj : isValidMove cur ⟨toX, toY⟩ = false) :
    processMove st colls log level now botId toX toY =
      ⟨st, colls, log,
        .err "Invalid move: must move to an adjacent cell (up/down/left/right)"⟩ := by
  unfold processMove; rw [hlive]
  simp only [hfin, Option.isSome_none, Bool.false_eq_true, if_false, hadj,
    not_false_eq_true, if_true]

theorem processMove_eq_err_bound (cur : Pos)
    (hlive : mapGet st.botPositions botId = some cur)
    (hfin : mapGet st.botFinishTimes botId = none)
    (hadj : isValidMove cur ⟨toX, toY⟩ = true)
    (hbound : checkBoundaryCollision ⟨toX, toY⟩ st.grid.length (headLen st.grid)
      = true) :
    processMove st colls log level now botId toX toY =
      ⟨st, colls, log, .err "Invalid move: out of bounds"⟩ := by
  unfold processMove; rw [hlive]
  simp only [hfin, Option.isSome_none, Bool.false_eq_true, if_false, hadj,
    not_true, hbound, if_true]

theorem processMove_eq_collision (cur : Pos)
    (hlive : mapGet st.botPositions botId = some cur)
    (hfin : mapGet st.botFinishTimes botId = none)
    (hadj : isValidMove cur ⟨toX, toY⟩ = true)
    (hbound : checkBoundaryCollision ⟨toX, toY⟩ st.grid.length (headLen st.grid)
      = false)
    (hobs : checkObstacleCollision st.grid ⟨toX, toY⟩ = true) :
    processMove st colls log level now botId toX toY =
      ⟨{ st with moveCounters :=
            mapSet st.moveCounters botId ((mapGet st.moveCounters botId).getD 0 + 1) },
        mapSet colls botId ((mapGet colls botId).getD 0 + 1),
        log ++ [⟨botId, level, cur.x, cur.y, toX, toY,
          (mapGet st.moveCounters botId).getD 0 + 1, true⟩],
        .collision COLLISION_PENALTY_SECONDS ((mapGet colls botId).getD 0 + 1)
          cur ((mapGet st.moveCounters botId).getD 0 + 1)⟩ := by
  unfold processMove; rw [hlive]
  simp only [hfin, Option.isSome_none, Bool.false_eq_true, if_false, hadj,
    not_true, hbound, hobs, if_true]

theorem processMove_eq_blocked (cur : Pos) (blocker : String)
    (hlive : mapGet st.botPositions botId = some cur)
    (hfin : mapGet st.botFinishTimes botId = none)
    (hadj : isValidMove cur ⟨toX, toY⟩ = true)
    (hbound : checkBoundaryCollision ⟨toX, toY⟩ st.grid.length (headLen st.grid)
      = false)
    (hobs : checkObstacleCollision st.grid ⟨toX, toY⟩ = false)
    (hblock : checkBotCollision
        (st.botPositions.filter fun e => ¬ (mapGet st.botFinishTimes e.1).isSome)
        botId ⟨toX, toY⟩ = some blocker) :
    processMove st colls log level now botId toX toY =
      ⟨{ st with moveCounters :=
            mapSet st.moveCounters botId ((mapGet st.moveCounters botId).getD 0 + 1) },
        colls, log,
        .blocked blocker cur ((mapGet st.moveCounters botId).getD 0 + 1)⟩ := by
  unfold processMove; rw [hlive]
  simp only [hfin, Option.isSome_none, Bool.false_eq_true, if_false, hadj,
    not_true, hbound, hobs, if_true, hblock]

theorem processMove_eq_advance (cur : Pos)
    (hlive : mapGet st.botPositions botId = some cur)
    (hfin : mapGet st.botFinishTimes botId = none)
    (hadj : isValidMove cur ⟨toX, toY⟩ = true)
    (hbound : checkBoundaryCollision ⟨toX, toY⟩ st.grid.length (headLen st.grid)
      = false)
    (hobs : checkObstacleCollision st.grid ⟨toX, toY⟩ = false)
    (hblock : checkBotCollision
        (st.botPositions.filter fun e => ¬ (mapGet st.botFinishTimes e.1).isSome)
        botId ⟨toX, toY⟩ = none)
    (hend : (⟨toX, toY⟩ : Pos) ≠ st.endPosition) :
    processMove st colls log level now botId toX toY =
      ⟨{ st with
          botPositions := mapSet st.botPositions botId ⟨toX, toY⟩,
          moveCounters :=
            mapSet st.moveCounters botId ((mapGet st.moveCounters botId).getD 0 + 1) },
        colls,
        log ++ [⟨botId, level, cur.x, cur.y, toX, toY,
          (mapGet st.moveCounters botId).getD 0 + 1, false⟩],
        .ok ⟨toX, toY⟩ ((mapGet st.moveCounters botId).getD 0 + 1) false none⟩ := by
  unfold processMove; rw [hlive]
  simp only [hfin, Option.isSome_none, Bool.false_eq_true, if_false, hadj,
    not_true, hbound, hobs, if_true, hblock]
  rw [if_neg hend]

theorem processMove_eq_finish (cur : Pos)
    (hlive : mapGet st.botPositions botId = some cur)
    (hfin : mapGet st.botFinishTimes botId = none)
    (hadj : isValidMove cur ⟨toX, toY⟩ = true)
    (hbound : checkBoundaryCollision ⟨toX, toY⟩ st.grid.length (headLen st.grid)
      = false)
    (hobs : checkObstacleCollision st.grid ⟨toX, toY⟩ = false)
    (hblock : checkBotCollision
        (st.botPositions.filter fun e => ¬ (mapGet st.botFinishTimes e.1).isSome)
        botId ⟨toX, toY⟩ = none)
    (hend : (⟨toX, toY⟩ : Pos) = st.endPosition) :
    processMove st colls log level now botId toX toY =
      ⟨{ st with
          botPositions := mapSet st.botPositions botId ⟨toX, toY⟩,
          moveCounters :=
            mapSet st.moveCounters botId ((mapGet st.moveCounters botId).getD 0 + 1),
          botFinishTimes := mapSet st.botFinishTimes botId (now - st.startTime) },
        colls,
        log ++ [⟨botId, level, cur.x, cur.y, toX, toY,
          (mapGet st.moveCounters botId).getD 0 + 1, false⟩],
        .ok ⟨toX, toY⟩ ((mapGet st.moveCounters botId).getD 0 + 1) true
          (some (now - st.startTime))⟩ := by
  unfold processMove; rw [hlive]
  simp only [hfin, Option.isSome_none, Bool.false_eq_true, if_false, hadj,
    not_true, hbound, hobs, if_true, hblock]
  rw [if_pos hend]

end ProcessMoveBranches

end BotArena

namespace BotArena

/-- Concrete 3×3 fixture: obstacle in the centre, start (0,0), goal (2,2). -/
def gridA : Grid := [[2, 0, 0], [0, 1, 0], [0, 0, 3]]

/-- Concrete runtime state: A at the start cell, B one cell below it. -/
def stA : GameState :=
  ⟨gridA, [("A", ⟨0, 0⟩), ("B", ⟨0, 1⟩)], ⟨2, 2⟩, 100,
    [("A", 0), ("B", 0)], []⟩

/-- C10: every processMove call that passes the adjacency and boundary
checks — whatever happens afterwards (obstacle collision, agent block,
or a successful advance) — increments the submitting participant's
per-round move counter by exactly one, so the counter counts attempted
moves. -/
theorem C10_move_counter_counts_attempts (st : GameState)
    (colls : List (String × Nat)) (log : List MoveRec) (level now : Nat)
    (botId : String) (toX toY : Int) (cur : Pos)
    (hlive : mapGet st.botPositions botId = some cur)
    (hfin : mapGet st.botFinishTimes botId = none)
    (hadj : isValidMove cur ⟨toX, toY⟩ = true)
    (hbound : checkBoundaryCollision ⟨toX, toY⟩ st.grid.length (headLen st.grid)
      = false) :
    mapGet (processMove st colls log level now botId toX toY).state.moveCounters
      botId = some ((mapGet st.moveCounters botId).getD 0 + 1) := by
  unfold processMove
  rw [hlive]
  simp only [hfin, Option.isSome_none, Bool.false_eq_true, if_false, hadj,
    not_true, hbound, if_true]
  split
  · exact mapGet_mapSet_self _ _ _
  · split
    · exact mapGet_mapSet_self _ _ _
    · split
      · exact mapGet_mapSet_self _ _ _
      · exact mapGet_mapSet_self _ _ _

theorem C10_witness :
    mapGet (processMove stA [("A", 0), ("B", 0)] [] 1 150 "B" 1 1).state.moveCounters
      "B" = some 1 := by
  have h := C10_move_counter_counts_attempts stA [("A", 0), ("B", 0)] [] 1 150
    "B" 1 1 ⟨0, 1⟩ (by decide) (by decide) (by decide) (by decide)
  exact h.trans (by decide)

/-- C7: an adjacent, in-bounds move onto an obstacle cell leaves the
participant where they were (live position map untouched, reported
position = current cell), increments their persisted collision counter
by exactly one, reports collision = true with the fixed 10-second
penalty, leaves the finish-time map unchanged, and still appends the
attempted move to the move log flagged as a collision. -/
theorem C7_obstacle_collision (st : GameState) (colls : List (String × Nat))
    (log : List MoveRec) (level now : Nat) (botId : String) (toX toY : Int)
    (cur : Pos) (hlive : mapGet st.botPositions botId = some cur)
    (hfin : mapGet st.botFinishTimes botId = none)
    (hadj : isValidMove cur ⟨toX, toY⟩ = true)
    (hbound : checkBoundaryCollision ⟨toX, toY⟩ st.grid.length (headLen st.grid)
      = false)
    (hobs : checkObstacleCollision st.grid ⟨toX, toY⟩ = true) :
    (processMove st colls log level now botId toX toY).state.botPositions
        = st.botPositions ∧
    (processMove st colls log level now botId toX toY).state.botFinishTimes
        = st.botFinishTimes ∧
    mapGet (processMove st colls log level now botId toX toY).colls botId
        = some ((mapGet colls botId).getD 0 + 1) ∧
    (processMove st colls log level now botId toX toY).result
        = .collision 10 ((mapGet colls botId).getD 0 + 1) cur
            ((mapGet st.moveCounters botId).getD 0 + 1) ∧
    (processMove st colls log level now botId toX toY).log
        = log ++ [⟨botId, level, cur.x, cur.y, toX, toY,
            (mapGet st.moveCounters botId).getD 0 + 1, true⟩] := by
  rw [processMove_eq_collision st colls log level now botId toX toY cur hlive
    hfin hadj hbound hobs]
  exact ⟨rfl, rfl, mapGet_mapSet_self _ _ _, rfl, rfl⟩

theorem C7_witness :
    (processMove stA [("A", 0), ("B", 0)] [] 1 150 "B" 1 1).state.botPositions
        = stA.botPositions ∧
    (processMove stA [("A", 0), ("B", 0)] [] 1 150 "B" 1 1).result
        = .collision 10 1 ⟨0, 1⟩ 1 := by
  have h := C7_obstacle_collision stA [("A", 0), ("B", 0)] [] 1 150 "B" 1 1
    ⟨0, 1⟩ (by decide) (by decide) (by decide) (by decide) (by decide)
  exact ⟨h.1, h.2.2.2.1.trans (by decide)⟩

end BotArena

namespace BotArena

/-- Any failure of the precondition / adjacency / boundary checks leaves
the whole outcome unchanged apart from an error result. -/
theorem processMove_err_frame (st : GameState) (colls : List (String × Nat))
    (log : List MoveRec) (level now : Nat) (botId : String) (toX toY : Int)
    (h : ∀ cur, mapGet st.botPositions botId = some cur →
      mapGet st.botFinishTimes botId = none →
      isValidMove cur ⟨toX, toY⟩ = false ∨
        checkBoundaryCollision ⟨toX, toY⟩ st.grid.length (headLen st.grid) = true) :
    ∃ msg, processMove st colls log level now botId toX toY
      = ⟨st, colls, log, .err msg⟩ := by
  cases hlive : mapGet st.botPositions botId with
  | none => exact ⟨_, processMove_eq_err_noBot _ _ _ _ _ _ _ _ hlive⟩
  | some cur =>
    cases hfin : mapGet st.botFinishTimes botId with
    | some t =>
      exact ⟨_, processMove_eq_err_finished _ _ _ _ _ _ _ _ cur hlive
        (by simp [hfin])⟩
    | none =>
      rcases h cur hlive hfin with hadj | hbound
      · exact ⟨_, processMove_eq_err_adj _ _ _ _ _ _ _ _ cur hlive hfin hadj⟩
      · cases hadj : isValidMove cur ⟨toX, toY⟩ with
        | false =>
          exact ⟨_, processMove_eq_err_adj _ _ _ _ _ _ _ _ cur hlive hfin hadj⟩
        | true =>
          exact ⟨_, processMove_eq_err_bound _ _ _ _ _ _ _ _ cur hlive hfin hadj
            hbound⟩

/-- C8: processMove rejects with a synchronous error and leaves the
round runtime state, the collision counters and the move log entirely
unchanged when: there is no round state for the game, the bot is not
live in it, the bot has already finished, the move is not one cardinal
step, or the move leaves the grid; consequently submitting the same
out-of-bounds or non-adjacent move twice never mutates the state. -/
theorem C8_invalid_moves_rejected_without_mutation (st : GameState)
    (colls : List (String × Nat)) (log : List MoveRec) (level now : Nat)
    (botId : String) (toX toY : Int) :
    (processMoveOpt none colls log level now botId toX toY
      = (none, colls, log, .err "Game state not found. Level may not have started.")) ∧
    (mapGet st.botPositions botId = none →
      processMove st colls log level now botId toX toY
        = ⟨st, colls, log, .err "Bot is not active in this game"⟩) ∧
    (∀ cur, mapGet st.botPositions botId = some cur →
      (mapGet st.botFinishTimes botId).isSome = true →
      processMove st colls log level now botId toX toY
        = ⟨st, colls, log, .err "Bot has already reached the finish"⟩) ∧
    (∀ cur, mapGet st.botPositions botId = some cur →
      mapGet st.botFinishTimes botId = none →
      isValidMove cur ⟨toX, toY⟩ = false →
      processMove st colls log level now botId toX toY
        = ⟨st, colls, log,
            .err "Invalid move: must move to an adjacent cell (up/down/left/right)"⟩) ∧
    (∀ cur, mapGet st.botPositions botId = some cur →
      mapGet st.botFinishTimes botId = none →
      isValidMove cur ⟨toX, toY⟩ = true →
      checkBoundaryCollision ⟨toX, toY⟩ st.grid.length (headLen st.grid) = true →
      processMove st colls log level now botId toX toY
        = ⟨st, colls, log, .err "Invalid move: out of bounds"⟩) ∧
    ((∀ cur, mapGet st.botPositions botId = some cur →
        isValidMove cur ⟨toX, toY⟩ = false ∨
          checkBoundaryCollision ⟨toX, toY⟩ st.grid.length (headLen st.grid)
            = true) →
      (processMove st colls log level now botId toX toY).state = st ∧
      (processMove (processMove st colls log level now botId toX toY).state
          colls log level now botId toX toY).state = st) := by
  refine ⟨rfl,
    fun h => processMove_eq_err_noBot _ _ _ _ _ _ _ _ h,
    fun cur h1 h2 => processMove_eq_err_finished _ _ _ _ _ _ _ _ cur h1 h2,
    fun cur h1 h2 h3 => processMove_eq_err_adj _ _ _ _ _ _ _ _ cur h1 h2 h3,
    fun cur h1 h2 h3 h4 => processMove_eq_err_bound _ _ _ _ _ _ _ _ cur h1 h2 h3 h4,
    fun h => ?_⟩
  obtain ⟨msg, hm⟩ := processMove_err_frame st colls log level now botId toX toY
    (fun cur hc _ => h cur hc)
  have h1 : (processMove st colls log level now botId toX toY).state = st := by
    rw [hm]
  refine ⟨h1, ?_⟩
  rw [h1]
  obtain ⟨msg₂, hm₂⟩ := processMove_err_frame st colls log level now botId toX toY
    (fun cur hc _ => h cur hc)
  rw [hm₂]

theorem C8_witness :
    (processMove stA [] [] 1 150 "A" 2 2).state = stA ∧
    (processMove stA [] [] 1 150 "A" (-1) 0
      = ⟨stA, [], [], .err "Invalid move: out of bounds"⟩) ∧
    (processMove stA [] [] 1 150 "C" 1 0
      = ⟨stA, [], [], .err "Bot is not active in this game"⟩) := by
  refine ⟨((C8_invalid_moves_rejected_without_mutation stA [] [] 1 150 "A" 2 2).2.2.2.2.2
      (fun cur hc => ?_)).1,
    (C8_invalid_moves_rejected_without_mutation stA [] [] 1 150 "A" (-1) 0).2.2.2.2.1
      ⟨0, 0⟩ (by decide) (by decide) (by decide) (by decide),
    (C8_invalid_moves_rejected_without_mutation stA [] [] 1 150 "C" 1 0).2.1
      (by decide)⟩
  · have : cur = ⟨0, 0⟩ := by
      have hd : mapGet stA.botPositions "A" = some ⟨0, 0⟩ := by decide
      rw [hd] at hc; exact (Option.some_inj.mp hc).symm
    subst this
    exact Or.inl (by decide)

end BotArena

namespace BotArena

/-- C6 as written is false: a blocked move does mutate the Round Runtime
State — the submitting participant's move counter is incremented before
the agent-block check.  Concretely, A's move onto B's cell is rejected
as blocked, yet A's move counter changes from 0 to 1. -/
theorem C6_counterexample :
    (processMove stA [("A", 0), ("B", 0)] [] 1 150 "A" 0 1).result
        = .blocked "B" ⟨0, 0⟩ 1 ∧
    (processMove stA [("A", 0), ("B", 0)] [] 1 150 "A" 0 1).state.moveCounters
        ≠ stA.moveCounters := by
  decide

/-- C6 (amended): a move that passes the adjacency, boundary and
obstacle checks but targets a cell occupied by a different unfinished
participant is rejected as blocked with no penalty: positions, collision
counters, finish times and the move log are unchanged — though the
submitting participant's move counter is incremented; participants with
a recorded finish time are excluded from the blocking check, so a move
may freely target a cell occupied only by finished participants. -/
theorem C6_blocked_by_unfinished_agent (st : GameState)
    (colls : List (String × Nat)) (log : List MoveRec) (level now : Nat)
    (botId : String) (toX toY : Int) (cur : Pos)
    (hlive : mapGet st.botPositions botId = some cur)
    (hfin : mapGet st.botFinishTimes botId = none)
    (hadj : isValidMove cur ⟨toX, toY⟩ = true)
    (hbound : checkBoundaryCollision ⟨toX, toY⟩ st.grid.length (headLen st.grid)
      = false)
    (hobs : checkObstacleCollision st.grid ⟨toX, toY⟩ = false) :
    ((∃ e ∈ st.botPositions, e.1 ≠ botId ∧ e.2 = (⟨toX, toY⟩ : Pos) ∧
        mapGet st.botFinishTimes e.1 = none) →
      ∃ blocker,
        (processMove st colls log level now botId toX toY).result
          = .blocked blocker cur ((mapGet st.moveCounters botId).getD 0 + 1) ∧
        (processMove st colls log level now botId toX toY).state.botPositions
          = st.botPositions ∧
        (processMove st colls log level now botId toX toY).state.botFinishTimes
          = st.botFinishTimes ∧
        (processMove st colls log level now botId toX toY).state.grid = st.grid ∧
        (processMove st colls log level now botId toX toY).colls = colls ∧
        (processMove st colls log level now botId toX toY).log = log ∧
        (processMove st colls log level now botId toX toY).state.moveCounters
          = mapSet st.moveCounters botId
              ((mapGet st.moveCounters botId).getD 0 + 1)) ∧
    ((∀ e ∈ st.botPositions, e.1 ≠ botId → e.2 = (⟨toX, toY⟩ : Pos) →
        (mapGet st.botFinishTimes e.1).isSome = true) →
      mapGet (processMove st colls log level now botId toX toY).state.botPositions
          botId = some ⟨toX, toY⟩ ∧
      ∃ fin ftv,
        (processMove st colls log level now botId toX toY).result
          = .ok ⟨toX, toY⟩ ((mapGet st.moveCounters botId).getD 0 + 1) fin ftv) := by
  constructor
  · rintro ⟨e, hem, hne, hpos, hunfin⟩
    have hsome : (((st.botPositions.filter
        fun e => ¬ (mapGet st.botFinishTimes e.1).isSome).find?
          fun bp => bp.1 ≠ botId ∧ bp.2 = (⟨toX, toY⟩ : Pos))).isSome = true := by
      rw [List.find?_isSome]
      refine ⟨e, List.mem_filter.mpr ⟨hem, by simp [hunfin]⟩, by simp [hne, hpos]⟩
    obtain ⟨bp, hbp⟩ := Option.isSome_iff_exists.mp hsome
    have hblock : checkBotCollision
        (st.botPositions.filter fun e => ¬ (mapGet st.botFinishTimes e.1).isSome)
        botId ⟨toX, toY⟩ = some bp.1 := by
      unfold checkBotCollision; rw [hbp]; rfl
    rw [processMove_eq_blocked st colls log level now botId toX toY cur bp.1
      hlive hfin hadj hbound hobs hblock]
    exact ⟨bp.1, rfl, rfl, rfl, rfl, rfl, rfl, rfl⟩
  · intro hall
    have hblock : checkBotCollision
        (st.botPositions.filter fun e => ¬ (mapGet st.botFinishTimes e.1).isSome)
        botId ⟨toX, toY⟩ = none := by
      unfold checkBotCollision
      rw [List.find?_eq_none.mpr]
      · rfl
      · intro x hx
        have hx' := List.mem_filter.mp hx
        have hunfin : ¬ (mapGet st.botFinishTimes x.1).isSome = true := by
          simpa using hx'.2
        simp only [decide_eq_true_eq, not_and]
        intro hne hpos
        exact absurd (hall x hx'.1 hne hpos) hunfin
    by_cases hend : (⟨toX, toY⟩ : Pos) = st.endPosition
    · rw [processMove_eq_finish st colls log level now botId toX toY cur hlive
        hfin hadj hbound hobs hblock hend]
      exact ⟨mapGet_mapSet_self _ _ _, true, some (now - st.startTime), rfl⟩
    · rw [processMove_eq_advance st colls log level now botId toX toY cur hlive
        hfin hadj hbound hobs hblock hend]
      exact ⟨mapGet_mapSet_self _ _ _, false, none, rfl⟩

/-- Witness: B is blocked moving onto unfinished A; once A is finished,
B moves onto A's cell freely. -/
theorem C6_witness :
    (∃ blocker, (processMove stA [] [] 1 150 "B" 0 0).result
        = .blocked blocker ⟨0, 1⟩ 1) ∧
    mapGet (processMove
        { stA with botFinishTimes := [("A", 42)] } [] [] 1 150 "B" 0 0).state.botPositions
      "B" = some ⟨0, 0⟩ := by
  constructor
  · obtain ⟨blocker, hres, -⟩ :=
      ((C6_blocked_by_unfinished_agent stA [] [] 1 150 "B" 0 0 ⟨0, 1⟩ (by decide)
        (by decide) (by decide) (by decide) (by decide)).1
        ⟨("A", ⟨0, 0⟩), by decide, by decide, by decide, by decide⟩)
    exact ⟨blocker, by simpa using hres⟩
  · exact ((C6_blocked_by_unfinished_agent
      { stA with botFinishTimes := [("A", 42)] } [] [] 1 150 "B" 0 0 ⟨0, 1⟩
      (by decide) (by decide) (by decide) (by decide) (by decide)).2
      (by decide)).1

end BotArena

namespace BotArena

/-- C9 as written is false: calculatePrize formats each share with
toFixed(2) (round to nearest cent), so for pool 0.05 it returns 0.05 and
0.01, which neither equal 0.9 × pool and 0.1 × pool nor sum to the
pool. -/
theorem C9_counterexample :
    (calculatePrize (1 / 20)).1 ≠ 0.9 * (1 / 20 : ℚ) ∧
    (calculatePrize (1 / 20)).1 + (calculatePrize (1 / 20)).2 ≠ (1 / 20 : ℚ) := by
  constructor <;> norm_num [calculatePrize, jsToFixed2]

/-- C9 (amended): completeGame awards the winner exactly 0.9 × prize
pool; calculatePrize returns 0.9 × pool and 0.1 × pool each rounded to
the nearest hundredth (ties up), which equal 0.9 × pool and 0.1 × pool
exactly — and hence sum to the whole pool — whenever the pool is a whole
multiple of 0.1. -/
theorem C9_prize_split (pool : ℚ) (winnerId : String) :
    (completeGame pool winnerId).2.2 = 0.9 * pool ∧
    (calculatePrize pool
        = (jsToFixed2 (0.9 * pool), jsToFixed2 (0.1 * pool))) ∧
    (∀ k : ℤ, pool = k / 10 →
      (calculatePrize pool).1 = 0.9 * pool ∧
      (calculatePrize pool).2 = 0.1 * pool ∧
      (calculatePrize pool).1 + (calculatePrize pool).2 = pool) := by
  refine ⟨mul_comm pool 0.9, by rw [calculatePrize, mul_comm pool 0.9, mul_comm pool 0.1], ?_⟩
  rintro k rfl
  have h1 : (calculatePrize ((k : ℚ) / 10)).1 = 0.9 * ((k : ℚ) / 10) := by
    show jsToFixed2 ((k : ℚ) / 10 * 0.9) = 0.9 * ((k : ℚ) / 10)
    unfold jsToFixed2
    rw [show ((k : ℚ) / 10 * 0.9) * 100 + 1 / 2 = ((9 * k : ℤ) : ℚ) + 1 / 2 by
      push_cast; ring]
    rw [add_comm, Int.floor_add_int, show ⌊(1 / 2 : ℚ)⌋ = 0 by norm_num]
    push_cast; ring
  have h2 : (calculatePrize ((k : ℚ) / 10)).2 = 0.1 * ((k : ℚ) / 10) := by
    show jsToFixed2 ((k : ℚ) / 10 * 0.1) = 0.1 * ((k : ℚ) / 10)
    unfold jsToFixed2
    rw [show ((k : ℚ) / 10 * 0.1) * 100 + 1 / 2 = ((k : ℤ) : ℚ) + 1 / 2 by
      ring_nf]
    rw [add_comm, Int.floor_add_int, show ⌊(1 / 2 : ℚ)⌋ = 0 by norm_num]
    ring
  exact ⟨h1, h2, by rw [h1, h2]; ring⟩

theorem C9_witness :
    (completeGame 2 "W").2.2 = 0.9 * 2 ∧
    (calculatePrize 2).1 = 0.9 * 2 ∧
    (calculatePrize 2).1 + (calculatePrize 2).2 = 2 := by
  have h := C9_prize_split 2 "W"
  have h3 := h.2.2 20 (by norm_num)
  exact ⟨h.1, by simpa using h3.1, by simpa using h3.2.2⟩

end BotArena

namespace BotArena

theorem sentinelFold_preserve (sentinel : Nat) (l : List Participant)
    (acc : List (String × Nat)) (b : String) (t : Nat)
    (h : mapGet acc b = some t) :
    mapGet (l.foldl (sentinelStep sentinel) acc) b = some t := by
  induction l generalizing acc with
  | nil => exact h
  | cons p rest ih =>
    simp only [List.foldl_cons]
    unfold sentinelStep
    split
    · exact ih acc h
    · by_cases hb : p.botId = b
      · rename_i hnone
        rw [hb, h] at hnone; simp at hnone
      · exact ih _ ((mapGet_mapSet_ne acc p.botId b sentinel
          (fun hh => hb hh.symm)).trans h)

theorem sentinelFold_cases (sentinel : Nat) (l : List Participant)
    (acc : List (String × Nat)) (b : String) :
    mapGet (l.foldl (sentinelStep sentinel) acc) b = mapGet acc b ∨
      mapGet (l.foldl (sentinelStep sentinel) acc) b = some sentinel := by
  induction l generalizing acc with
  | nil => exact Or.inl rfl
  | cons p rest ih =>
    simp only [List.foldl_cons]
    unfold sentinelStep
    split
    · exact ih acc
    · by_cases hb : p.botId = b
      · right
        exact sentinelFold_preserve sentinel rest _ b sentinel
          (by rw [← hb]; exact mapGet_mapSet_self acc p.botId sentinel)
      · rcases ih (mapSet acc p.botId sentinel) with h | h
        · left
          exact h.trans (mapGet_mapSet_ne acc p.botId b sentinel
            (fun hh => hb hh.symm))
        · exact Or.inr h
  
theorem sentinelStep_isSome (sentinel : Nat) (acc : List (String × Nat))
    (q : Participant) :
    (mapGet (sentinelStep sentinel acc q) q.botId).isSome = true := by
  unfold sentinelStep
  split
  · assumption
  · rw [mapGet_mapSet_self]; rfl

theorem sentinelFold_isSome (sentinel : Nat) (l : List Participant)
    (acc : List (String × Nat)) (p : Participant) (hp : p ∈ l) :
    (mapGet (l.foldl (sentinelStep sentinel) acc) p.botId).isSome = true := by
  induction l generalizing acc with
  | nil => simp at hp
  | cons q rest ih =>
    simp only [List.foldl_cons]
    rcases List.mem_cons.mp hp with rfl | hmem
    · obtain ⟨t, ht⟩ := Option.isSome_iff_exists.mp
        (sentinelStep_isSome sentinel acc p)
      rw [sentinelFold_preserve sentinel rest _ p.botId t ht]; rfl
    · exact ih _ hmem

theorem sentinelFold_sets (sentinel : Nat) (l : List Participant)
    (acc : List (String × Nat)) (p : Participant) (hp : p ∈ l)
    (hnone : mapGet acc p.botId = none) :
    mapGet (l.foldl (sentinelStep sentinel) acc) p.botId = some sentinel := by
  rcases sentinelFold_cases sentinel l acc p.botId with h | h
  · exfalso
    have hs := sentinelFold_isSome sentinel l acc p hp
    rw [h, hnone] at hs
    simp at hs
  · exact h

end BotArena

namespace BotArena

theorem all_finished_iff (ft : List (String × Nat)) (parts : List Participant) :
    ((parts.filter fun p => !p.eliminated).all
        fun p => (mapGet ft p.botId).isSome) = true ↔
      ∀ p ∈ parts, p.eliminated = false → (mapGet ft p.botId).isSome = true := by
  rw [List.all_eq_true]
  constructor
  · intro h p hp he
    exact h p (List.mem_filter.mpr ⟨hp, by simp [he]⟩)
  · intro h p hp
    have hm := List.mem_filter.mp hp
    exact h p hm.1 (by simpa using hm.2)

theorem checkLevelComplete_fst (st : GameState) (parts : List Participant)
    (timeLimit now : Nat) :
    (checkLevelComplete st parts timeLimit now).1
      = (((parts.filter fun p => !p.eliminated).all
            fun p => (mapGet st.botFinishTimes p.botId).isSome)
          || decide (timeLimit * 1000 ≤ now - st.startTime)) := by
  simp only [checkLevelComplete]
  cases hA : ((parts.filter fun p => !p.eliminated).all
      fun p => (mapGet st.botFinishTimes p.botId).isSome) <;>
    cases hT : decide (timeLimit * 1000 ≤ now - st.startTime) <;> simp

theorem checkLevelComplete_snd_timeout (st : GameState)
    (parts : List Participant) (timeLimit now : Nat)
    (hTO : timeLimit * 1000 ≤ now - st.startTime) :
    (checkLevelComplete st parts timeLimit now).2
      = { st with botFinishTimes :=
          ((parts.filter fun p => !p.eliminated).foldl
            (sentinelStep (timeLimit * 1000 + 999999)) st.botFinishTimes) } := by
  simp only [checkLevelComplete]
  rw [show decide (timeLimit * 1000 ≤ now - st.startTime) = true by simpa using hTO]
  simp

end BotArena

namespace BotArena

/-- C5 (amended): checkLevelComplete returns true exactly when every
non-eliminated participant has a recorded finish time or the elapsed
time since round start has reached the time budget; when it returns true
because of timeout, every non-eliminated participant without a finish
time is assigned the sentinel finish time (budget in ms + 999999) while
recorded finish times are preserved; a sentinel-ranked participant ranks
after (has a strictly larger effective elimination time than) every
genuinely finished participant whose recorded finish time is positive
and within the sentinel bound and whose collision count does not exceed
the unfinished participant's. -/
theorem C5_round_completion (st : GameState) (parts : List Participant)
    (timeLimit now : Nat) :
    ((checkLevelComplete st parts timeLimit now).1 = true ↔
      ((∀ p ∈ parts, p.eliminated = false →
          (mapGet st.botFinishTimes p.botId).isSome = true) ∨
        timeLimit * 1000 ≤ now - st.startTime)) ∧
    (timeLimit * 1000 ≤ now - st.startTime →
      (∀ p ∈ parts, p.eliminated = false →
        mapGet st.botFinishTimes p.botId = none →
        mapGet (checkLevelComplete st parts timeLimit now).2.botFinishTimes
          p.botId = some (timeLimit * 1000 + 999999)) ∧
      (∀ b t, mapGet st.botFinishTimes b = some t →
        mapGet (checkLevelComplete st parts timeLimit now).2.botFinishTimes b
          = some t)) ∧
    (∀ cu cf t, 0 < t → t < timeLimit * 1000 + 999999 → cf ≤ cu →
      rankTime (some t) cf
        < rankTime (some (timeLimit * 1000 + 999999)) cu) := by
  refine ⟨?_, ?_, ?_⟩
  · rw [checkLevelComplete_fst, Bool.or_eq_true, decide_eq_true_eq,
      all_finished_iff]
  · intro hTO
    rw [checkLevelComplete_snd_timeout st parts timeLimit now hTO]
    constructor
    · intro p hp he hnone
      exact sentinelFold_sets _ _ _ p
        (List.mem_filter.mpr ⟨hp, by simp [he]⟩) hnone
    · intro b t ht
      exact sentinelFold_preserve _ _ _ b t ht
  · intro cu cf t ht hlt hle
    simp only [rankTime]
    rw [if_neg (Nat.pos_iff_ne_zero.mp ht),
      if_neg (by omega : ¬ timeLimit * 1000 + 999999 = 0)]
    have h1 : t + cf * COLLISION_PENALTY_SECONDS * 1000
        < (timeLimit * 1000 + 999999) + cu * COLLISION_PENALTY_SECONDS * 1000 := by
      simp only [COLLISION_PENALTY_SECONDS]
      omega
    exact_mod_cast h1

end BotArena

namespace BotArena

/-- Runtime state for the timeout scenario: A unfinished, B finished at
500 ms into a 1-second round. -/
def stC5 : GameState :=
  ⟨gridA, [("A", ⟨0, 0⟩), ("B", ⟨2, 2⟩)], ⟨2, 2⟩, 100,
    [("A", 0), ("B", 5)], [("B", 500)]⟩

/-- Participant rows for the timeout scenario: B carries 101 collisions. -/
def partsC5 : List Participant :=
  [⟨"A", 0, 0, false, none⟩, ⟨"B", 0, 101, false, none⟩]

/-- C5 as written is false in its ranking consequence: after the timeout
A receives the sentinel finish time (1 s budget + 999999 ms), yet A's
effective elimination time (1000999 ms, no collisions) is smaller than
finished B's (500 ms + 101 collisions × 10 s = 1010500 ms), so the
sentinel participant does not rank after every genuinely finished
participant. -/
theorem C5_counterexample :
    (checkLevelComplete stC5 partsC5 1 1200).1 = true ∧
    mapGet stC5.botFinishTimes "A" = none ∧
    mapGet (checkLevelComplete stC5 partsC5 1 1200).2.botFinishTimes "A"
      = some 1000999 ∧
    mapGet (checkLevelComplete stC5 partsC5 1 1200).2.botFinishTimes "B"
      = some 500 ∧
    rankTime (some 1000999) 0 < rankTime (some 500) 101 := by
  decide

theorem C5_witness :
    (checkLevelComplete stC5 partsC5 1 1200).1 = true ∧
    mapGet (checkLevelComplete stC5 partsC5 1 1200).2.botFinishTimes "A"
      = some 1000999 := by
  refine ⟨(C5_round_completion stC5 partsC5 1 1200).1.mpr (Or.inr (by decide)), ?_⟩
  exact ((C5_round_completion stC5 partsC5 1 1200).2.1 (by decide)).1
    ⟨"A", 0, 0, false, none⟩ (by decide) (by decide) (by decide)

end BotArena


namespace BotArena

/-- The non-eliminated participants, as filtered by eliminateBots. -/
def activeParts (parts : List Participant) : List Participant :=
  parts.filter fun p => !p.eliminated

/-- The ranking entry eliminateBots builds for one participant. -/
def codeEntry (ft : List (String × Nat)) (p : Participant) : RankEntry :=
  ⟨p.botId, rankTime (mapGet ft p.botId) p.collisions, p.collisions⟩

/-- The sorted rankings array of eliminateBots. -/
def sortedRankings (parts : List Participant) (ft : List (String × Nat)) :
    List RankEntry :=
  ((activeParts parts).map (codeEntry ft)).mergeSort
    fun a b => decide (a.totalTime ≤ b.totalTime)

theorem eliminateBots_rankings (parts : List Participant)
    (ft : List (String × Nat)) (level : Nat) :
    (eliminateBots parts ft level).rankings = sortedRankings parts ft := rfl

theorem eliminateBots_elimIds (parts : List Participant)
    (ft : List (String × Nat)) (level : Nat) :
    (eliminateBots parts ft level).eliminatedIds
      = (jsSliceFrom (sortedRankings parts ft)
          (((sortedRankings parts ft).length : Int) - ELIMINATION_MAP level)).map
            (·.botId) := rfl

theorem eliminateBots_qualified (parts : List Participant)
    (ft : List (String × Nat)) (level : Nat) :
    (eliminateBots parts ft level).qualified
      = (jsSliceUpto (sortedRankings parts ft)
          (((sortedRankings parts ft).length : Int) - ELIMINATION_MAP level)).map
            (·.botId) := rfl

theorem eliminateBots_participants (parts : List Participant)
    (ft : List (String × Nat)) (level : Nat) :
    (eliminateBots parts ft level).participants
      = parts.map fun p =>
          if (eliminateBots parts ft level).eliminatedIds.contains p.botId then
            { p with eliminated := true, eliminatedAt := some level }
          else
            match (eliminateBots parts ft level).qualified.indexOf? p.botId with
            | some i => { p with position := i + 1 }
            | none => p := rfl

end BotArena

namespace BotArena

/-- The claim's effective time, amended to match the source's
`finishTime || Infinity`: finish instant plus collisions × 10 s in ms,
with a missing — or zero — recorded finish time treated as infinite. -/
def specEffTime (oft : Option Nat) (c : Nat) : WithTop Nat :=
  match oft with
  | none => ⊤
  | some t => if t = 0 then ⊤ else ((t + c * 10 * 1000 : Nat) : WithTop Nat)

theorem rankTime_eq_specEffTime (oft : Option Nat) (c : Nat) :
    rankTime oft c = specEffTime oft c := by
  cases oft with
  | none => simp [rankTime, specEffTime]
  | some t =>
    by_cases ht : t = 0
    · simp [rankTime, specEffTime, ht]
    · simp only [rankTime, specEffTime, if_neg ht]
      rw [show ((t + c * 10 * 1000 : Nat) : WithTop Nat)
          = ((t : Nat) : WithTop Nat) + ((c * 10 * 1000 : Nat) : WithTop Nat) by
        exact_mod_cast rfl]
      rfl

theorem codeEntry_eq_specEntry (ft : List (String × Nat)) (p : Participant) :
    codeEntry ft p
      = ⟨p.botId, specEffTime (mapGet ft p.botId) p.collisions, p.collisions⟩ := by
  unfold codeEntry
  rw [rankTime_eq_specEffTime]

theorem sortedRankings_perm (parts : List Participant)
    (ft : List (String × Nat)) :
    List.Perm (sortedRankings parts ft)
      ((activeParts parts).map (codeEntry ft)) :=
  List.mergeSort_perm _ _

theorem sortedRankings_sorted (parts : List Participant)
    (ft : List (String × Nat)) :
    (sortedRankings parts ft).Pairwise fun a b => a.totalTime ≤ b.totalTime := by
  have h := @List.sorted_mergeSort RankEntry
    (fun a b : RankEntry => decide (a.totalTime ≤ b.totalTime))
    (fun a b c hab hbc => by
      simp only [decide_eq_true_eq] at *
      exact le_trans hab hbc)
    (fun a b => by
      simp only [Bool.or_eq_true, decide_eq_true_eq]
      exact le_total a.totalTime b.totalTime)
    ((activeParts parts).map (codeEntry ft))
  exact h.imp fun hab => of_decide_eq_true hab

theorem sortedRankings_ids_perm (parts : List Participant)
    (ft : List (String × Nat)) :
    List.Perm ((sortedRankings parts ft).map (·.botId))
      ((activeParts parts).map (·.botId)) := by
  have h := (sortedRankings_perm parts ft).map (·.botId)
  rw [List.map_map] at h
  exact h

theorem activeParts_ids_nodup (parts : List Participant)
    (hnodup : (parts.map (·.botId)).Nodup) :
    ((activeParts parts).map (·.botId)).Nodup :=
  hnodup.sublist ((List.filter_sublist _).map _)

theorem sortedRankings_ids_nodup (parts : List Participant)
    (ft : List (String × Nat)) (hnodup : (parts.map (·.botId)).Nodup) :
    ((sortedRankings parts ft).map (·.botId)).Nodup :=
  ((sortedRankings_ids_perm parts ft).nodup_iff).mpr
    (activeParts_ids_nodup parts hnodup)

theorem indexOf?_get_of_nodup (l : List String) (hnd : l.Nodup) (i : Nat)
    (h : i < l.length) : l.indexOf? (l.get ⟨i, h⟩) = some i := by
  induction l generalizing i with
  | nil => simp at h
  | cons a rest ih =>
    cases i with
    | zero => simp [List.indexOf?]
    | succ j =>
      have hj : j < rest.length := by simpa using h
      have hmem : rest.get ⟨j, hj⟩ ∈ rest := List.get_mem _ _ hj
      have hne : ¬ (a == rest.get ⟨j, hj⟩) = true := by
        simp only [beq_iff_eq]
        intro he
        exact (List.nodup_cons.mp hnd).1 (he ▸ hmem)
      show List.findIdx? (· == rest.get ⟨j, hj⟩) (a :: rest) = some (j + 1)
      rw [List.findIdx?_cons, if_neg hne, List.findIdx?_succ]
      have := ih (List.nodup_cons.mp hnd).2 j hj
      rw [show List.indexOf? (rest.get ⟨j, hj⟩) rest
          = List.findIdx? (· == rest.get ⟨j, hj⟩) rest from rfl] at this
      rw [this]
      rfl

end BotArena

namespace BotArena

theorem jsSliceUpto_of_le {α : Type} (l : List α) (E : Nat) (hE : E ≤ l.length) :
    jsSliceUpto l ((l.length : Int) - E) = l.take (l.length - E) := by
  unfold jsSliceUpto
  rw [if_neg (by omega), show ((l.length : Int) - E).toNat = l.length - E by omega]

theorem jsSliceFrom_of_le {α : Type} (l : List α) (E : Nat) (hE : E ≤ l.length) :
    jsSliceFrom l ((l.length : Int) - E) = l.drop (l.length - E) := by
  unfold jsSliceFrom
  rw [if_neg (by omega), show ((l.length : Int) - E).toNat = l.length - E by omega]

end BotArena

namespace BotArena

theorem sortedRankings_length (parts : List Participant)
    (ft : List (String × Nat)) :
    (sortedRankings parts ft).length = (activeParts parts).length :=
  (sortedRankings_perm parts ft).length_eq.trans (List.length_map _ _)

theorem eliminateBots_qualified_take (parts : List Participant)
    (ft : List (String × Nat)) (level : Nat)
    (hE : ELIMINATION_MAP level ≤ (activeParts parts).length) :
    (eliminateBots parts ft level).qualified
      = ((sortedRankings parts ft).take
          ((activeParts parts).length - ELIMINATION_MAP level)).map (·.botId) := by
  rw [eliminateBots_qualified, ← sortedRankings_length parts ft,
    jsSliceUpto_of_le _ _ (by rw [sortedRankings_length]; exact hE)]

theorem eliminateBots_elimIds_drop (parts : List Participant)
    (ft : List (String × Nat)) (level : Nat)
    (hE : ELIMINATION_MAP level ≤ (activeParts parts).length) :
    (eliminateBots parts ft level).eliminatedIds
      = ((sortedRankings parts ft).drop
          ((activeParts parts).length - ELIMINATION_MAP level)).map (·.botId) := by
  rw [eliminateBots_elimIds, ← sortedRankings_length parts ft,
    jsSliceFrom_of_le _ _ (by rw [sortedRankings_length]; exact hE)]

theorem eliminateBots_elimIds_subset_active (parts : List Participant)
    (ft : List (String × Nat)) (level : Nat)
    (hE : ELIMINATION_MAP level ≤ (activeParts parts).length) :
    ∀ b ∈ (eliminateBots parts ft level).eliminatedIds,
      b ∈ (activeParts parts).map (·.botId) := by
  intro b hb
  rw [eliminateBots_elimIds_drop parts ft level hE] at hb
  obtain ⟨e, he, rfl⟩ := List.mem_map.mp hb
  exact ((sortedRankings_ids_perm parts ft).mem_iff).mp
    (List.mem_map_of_mem _ (List.mem_of_mem_drop he))

end BotArena

namespace BotArena

theorem eliminateBots_elimIds_length (parts : List Participant)
    (ft : List (String × Nat)) (level : Nat)
    (hE : ELIMINATION_MAP level ≤ (activeParts parts).length) :
    (eliminateBots parts ft level).eliminatedIds.length = ELIMINATION_MAP level := by
  rw [eliminateBots_elimIds_drop parts ft level hE, List.length_map,
    List.length_drop, sortedRankings_length]
  omega

theorem eliminateBots_elimIds_nodup (parts : List Participant)
    (ft : List (String × Nat)) (level : Nat)
    (hnodup : (parts.map (·.botId)).Nodup)
    (hE : ELIMINATION_MAP level ≤ (activeParts parts).length) :
    (eliminateBots parts ft level).eliminatedIds.Nodup := by
  rw [eliminateBots_elimIds_drop parts ft level hE, List.map_drop]
  exact (sortedRankings_ids_nodup parts ft hnodup).sublist (List.drop_sublist _ _)

theorem countP_not_add {α : Type} (p : α → Bool) (l : List α) :
    l.countP (fun a => !(p a)) + l.countP p = l.length := by
  induction l with
  | nil => rfl
  | cons a rest ih =>
    by_cases h : p a <;> simp [List.countP_cons, h, ← ih] <;> omega

theorem eliminateBots_survivor_count (parts : List Participant)
    (ft : List (String × Nat)) (level : Nat)
    (hnodup : (parts.map (·.botId)).Nodup)
    (hE : ELIMINATION_MAP level ≤ (activeParts parts).length) :
    ((eliminateBots parts ft level).participants.filter
        fun p => !p.eliminated).length
      = (activeParts parts).length - ELIMINATION_MAP level := by
  have hElen := eliminateBots_elimIds_length parts ft level hE
  have hEnodup := eliminateBots_elimIds_nodup parts ft level hnodup hE
  have hEsub := eliminateBots_elimIds_subset_active parts ft level hE
  set elimIds := (eliminateBots parts ft level).eliminatedIds with helim
  rw [eliminateBots_participants, ← List.countP_eq_length_filter,
    List.countP_map]
  have hpred : parts.countP ((fun p : Participant => !p.eliminated) ∘
      fun p =>
        if elimIds.contains p.botId then
          { p with eliminated := true, eliminatedAt := some level }
        else
          match (eliminateBots parts ft level).qualified.indexOf? p.botId with
          | some i => { p with position := i + 1 }
          | none => p)
      = parts.countP fun p => !p.eliminated && !(elimIds.contains p.botId) := by
    apply List.countP_congr
    intro p _
    by_cases hc : elimIds.contains p.botId
    · have hc' : p.botId ∈ elimIds := List.elem_iff.mp hc
      simp [hc, hc']
    · have hc' : p.botId ∉ elimIds := fun hm => hc (List.elem_eq_true_of_mem hm)
      rcases hq : (eliminateBots parts ft level).qualified.indexOf? p.botId with _ | i <;>
        simp [hc, hc', hq]
  rw [hpred]
  have hstep : parts.countP (fun p => !p.eliminated && !(elimIds.contains p.botId))
      = (activeParts parts).countP fun p => !(elimIds.contains p.botId) := by
    rw [show activeParts parts = parts.filter (fun p => !p.eliminated) from rfl,
      List.countP_filter]
    apply List.countP_congr
    intro p _
    simp [Bool.and_comm]
  rw [hstep]
  have hcompl : (activeParts parts).countP (fun p => !(elimIds.contains p.botId))
      + (activeParts parts).countP (fun p => elimIds.contains p.botId)
      = (activeParts parts).length := countP_not_add _ _
  have hcount : (activeParts parts).countP
      (fun p : Participant => elimIds.contains p.botId) = ELIMINATION_MAP level := by
    have hmapcount : (activeParts parts).countP
        (fun p : Participant => elimIds.contains p.botId)
        = ((activeParts parts).map (·.botId)).countP
            (fun s => elimIds.contains s) := by
      rw [List.countP_map]
      rfl
    rw [hmapcount, List.countP_eq_length_filter]
    have hperm : List.Perm
        (((activeParts parts).map (·.botId)).filter fun s => elimIds.contains s)
        elimIds := by
      rw [List.perm_ext_iff_of_nodup
        (((activeParts_ids_nodup parts hnodup)).filter _) hEnodup]
      intro a
      constructor
      · intro ha
        have := List.mem_filter.mp ha
        exact List.elem_iff.mp this.2
      · intro ha
        exact List.mem_filter.mpr ⟨hEsub a ha, List.elem_eq_true_of_mem ha⟩
    rw [hperm.length_eq, hElen]
  omega

end BotArena

namespace BotArena

theorem eliminateBots_marks (parts : List Participant)
    (ft : List (String × Nat)) (level : Nat) :
    ∀ p ∈ parts, p.botId ∈ (eliminateBots parts ft level).eliminatedIds →
      ∃ p' ∈ (eliminateBots parts ft level).participants,
        p'.botId = p.botId ∧ p'.eliminated = true ∧
        p'.eliminatedAt = some level := by
  intro p hp hmem
  rw [eliminateBots_participants]
  refine ⟨_, List.mem_map_of_mem _ hp, ?_⟩
  rw [if_pos (List.elem_eq_true_of_mem hmem)]
  exact ⟨rfl, rfl, rfl⟩

theorem eliminateBots_reranks (parts : List Participant)
    (ft : List (String × Nat)) (level : Nat)
    (hnodup : (parts.map (·.botId)).Nodup)
    (hE : ELIMINATION_MAP level ≤ (activeParts parts).length) :
    ∀ i (hi : i < (eliminateBots parts ft level).qualified.length),
      ∃ p' ∈ (eliminateBots parts ft level).participants,
        p'.botId = (eliminateBots parts ft level).qualified.get ⟨i, hi⟩ ∧
        p'.position = i + 1 := by
  intro i hi
  have hqual := eliminateBots_qualified_take parts ft level hE
  have helim := eliminateBots_elimIds_drop parts ft level hE
  set k := (activeParts parts).length - ELIMINATION_MAP level with hk
  have hqnodup : (eliminateBots parts ft level).qualified.Nodup := by
    rw [hqual, List.map_take]
    exact (sortedRankings_ids_nodup parts ft hnodup).sublist
      (List.take_sublist _ _)
  set qid := (eliminateBots parts ft level).qualified.get ⟨i, hi⟩ with hqid
  have hqmem : qid ∈ (eliminateBots parts ft level).qualified :=
    List.get_mem _ _ hi
  have hqtake : qid ∈ ((sortedRankings parts ft).map (·.botId)).take k := by
    rw [← List.map_take, ← hqual]
    exact hqmem
  have hnotdrop : qid ∉ ((sortedRankings parts ft).map (·.botId)).drop k := by
    have hnd := sortedRankings_ids_nodup parts ft hnodup
    rw [← List.take_append_drop k ((sortedRankings parts ft).map (·.botId)),
      List.nodup_append] at hnd
    exact hnd.2.2 hqtake
  have hnotelim : qid ∉ (eliminateBots parts ft level).eliminatedIds := by
    rw [helim, List.map_drop]
    exact hnotdrop
  -- find the unique active participant carrying qid
  have hqactive : qid ∈ (activeParts parts).map (·.botId) :=
    (sortedRankings_ids_perm parts ft).mem_iff.mp
      (List.mem_of_mem_take hqtake)
  obtain ⟨p, hpact, hpid⟩ := List.mem_map.mp hqactive
  have hp : p ∈ parts := List.mem_of_mem_filter hpact
  refine ⟨_, by rw [eliminateBots_participants]; exact List.mem_map_of_mem _ hp, ?_⟩
  have hcont : ¬ (eliminateBots parts ft level).eliminatedIds.contains p.botId
      = true := by
    intro hc
    exact hnotelim (hpid ▸ List.elem_iff.mp hc)
  rw [if_neg hcont]
  have hidx : (eliminateBots parts ft level).qualified.indexOf? p.botId
      = some i := by
    rw [hpid, hqid]
    exact indexOf?_get_of_nodup _ hqnodup i hi
  rw [hidx]
  exact ⟨hpid, rfl⟩

end BotArena

namespace BotArena

/-- C1 (amended): after a round, eliminateBots ranks every non-eliminated
participant by effective time — recorded round finish time plus
collisions × 10 penalty-seconds in milliseconds, where a missing or
zero recorded finish time counts as infinite (the source computes
`finishTime || Infinity`) — sorts ascending, eliminates exactly the
bottom E given by the static table {1 ↦ 2, 2 ↦ 4, 3 ↦ 3}, marks each
eliminated participant with the round at which they fell, and re-ranks
the survivors 1..N in the same order, so a 10-entrant match leaves
8, then 4, then exactly 1 survivor. -/
theorem C1_elimination_ranks_and_culls (parts : List Participant)
    (ft : List (String × Nat)) (level : Nat)
    (hnodup : (parts.map (·.botId)).Nodup)
    (hE : ELIMINATION_MAP level ≤ (activeParts parts).length) :
    (ELIMINATION_MAP 1 = 2 ∧ ELIMINATION_MAP 2 = 4 ∧ ELIMINATION_MAP 3 = 3) ∧
    List.Perm (eliminateBots parts ft level).rankings
      ((activeParts parts).map fun p =>
        ⟨p.botId, specEffTime (mapGet ft p.botId) p.collisions,
          p.collisions⟩) ∧
    (eliminateBots parts ft level).rankings.Pairwise
      (fun a b => a.totalTime ≤ b.totalTime) ∧
    (eliminateBots parts ft level).qualified
      = ((eliminateBots parts ft level).rankings.take
          ((activeParts parts).length - ELIMINATION_MAP level)).map (·.botId) ∧
    (eliminateBots parts ft level).eliminatedIds
      = ((eliminateBots parts ft level).rankings.drop
          ((activeParts parts).length - ELIMINATION_MAP level)).map (·.botId) ∧
    (eliminateBots parts ft level).eliminatedIds.length
      = ELIMINATION_MAP level ∧
    (∀ p ∈ parts, p.botId ∈ (eliminateBots parts ft level).eliminatedIds →
      ∃ p' ∈ (eliminateBots parts ft level).participants,
        p'.botId = p.botId ∧ p'.eliminated = true ∧
        p'.eliminatedAt = some level) ∧
    (∀ i (hi : i < (eliminateBots parts ft level).qualified.length),
      ∃ p' ∈ (eliminateBots parts ft level).participants,
        p'.botId = (eliminateBots parts ft level).qualified.get ⟨i, hi⟩ ∧
        p'.position = i + 1) ∧
    ((eliminateBots parts ft level).participants.filter
        fun p => !p.eliminated).length
      = (activeParts parts).length - ELIMINATION_MAP level := by
  refine ⟨⟨rfl, rfl, rfl⟩, ?_, ?_, ?_, ?_, ?_, ?_, ?_, ?_⟩
  · have hmapeq : (activeParts parts).map (codeEntry ft)
        = (activeParts parts).map fun p =>
            ⟨p.botId, specEffTime (mapGet ft p.botId) p.collisions,
              p.collisions⟩ :=
      List.map_congr_left fun p _ => codeEntry_eq_specEntry ft p
    rw [eliminateBots_rankings, ← hmapeq]
    exact sortedRankings_perm parts ft
  · rw [eliminateBots_rankings]
    exact sortedRankings_sorted parts ft
  · rw [eliminateBots_rankings]
    exact eliminateBots_qualified_take parts ft level hE
  · rw [eliminateBots_rankings]
    exact eliminateBots_elimIds_drop parts ft level hE
  · exact eliminateBots_elimIds_length parts ft level hE
  · exact eliminateBots_marks parts ft level
  · exact eliminateBots_reranks parts ft level hnodup hE
  · exact eliminateBots_survivor_count parts ft level hnodup hE

end BotArena

namespace BotArena

/-- The claim's effective-time formula, as written (no falsy exception). -/
def claimEffTime (t : Nat) (c : Nat) : Nat :=
  t + c * 10 * 1000

/-- All-active participant row. -/
def mkPartC1 (s : String) : Participant := ⟨s, 0, 0, false, none⟩

def partsC1 : List Participant :=
  [mkPartC1 "A", mkPartC1 "B", mkPartC1 "C", mkPartC1 "D"]

def ftC1 : List (String × Nat) :=
  [("A", 0), ("B", 1000), ("C", 2000), ("D", 3000)]

unseal List.mergeSort List.merge in
/-- C1 as written is false: with recorded finish times A=0, B=1000,
C=2000, D=3000 (no collisions) in round 3, the claim's effective times
rank A strictly first, so the bottom 3 are B, C, D; but the source's
`finishTime || Infinity` treats A's recorded 0 as Infinity, and the code
eliminates A while B survives. -/
theorem C1_counterexample :
    claimEffTime 0 0 < claimEffTime 1000 0 ∧
    claimEffTime 1000 0 < claimEffTime 2000 0 ∧
    claimEffTime 2000 0 < claimEffTime 3000 0 ∧
    ELIMINATION_MAP 3 = 3 ∧
    "A" ∈ (eliminateBots partsC1 ftC1 3).eliminatedIds ∧
    "B" ∉ (eliminateBots partsC1 ftC1 3).eliminatedIds := by
  decide

def parts10 : List Participant :=
  [mkPartC1 "P1", mkPartC1 "P2", mkPartC1 "P3", mkPartC1 "P4", mkPartC1 "P5",
   mkPartC1 "P6", mkPartC1 "P7", mkPartC1 "P8", mkPartC1 "P9", mkPartC1 "P10"]

def ft10 : List (String × Nat) :=
  [("P1", 100), ("P2", 200), ("P3", 300), ("P4", 400), ("P5", 500),
   ("P6", 600), ("P7", 700), ("P8", 800), ("P9", 900), ("P10", 1000)]

theorem C1_witness :
    ((eliminateBots parts10 ft10 1).participants.filter
        fun p => !p.eliminated).length = 8 ∧
    (eliminateBots parts10 ft10 1).eliminatedIds.length = 2 ∧
    10 - ELIMINATION_MAP 1 = 8 ∧ 8 - ELIMINATION_MAP 2 = 4 ∧
    4 - ELIMINATION_MAP 3 = 1 := by
  have h := C1_elimination_ranks_and_culls parts10 ft10 1 (by decide) (by decide)
  refine ⟨h.2.2.2.2.2.2.2.2.trans (by decide), ?_, by decide, by decide, by decide⟩
  exact h.2.2.2.2.2.1.trans (by decide)

end BotArena

namespace BotArena

/-! ## Grid generator invariants -/

theorem setCell_length (g : Grid) (x y v : Nat) :
    (setCell g x y v).length = g.length := by
  simp [setCell]

theorem setCell_row_length (g : Grid) (x y v : Nat) (cols : Nat)
    (hdim : ∀ row ∈ g, row.length = cols) :
    ∀ row ∈ setCell g x y v, row.length = cols := by
  by_cases hy : y < g.length
  · intro row hrow
    rcases List.mem_or_eq_of_mem_set hrow with h | h
    · exact hdim row h
    · subst h
      rw [List.length_set]
      have hgd : g.getD y [] = g[y] := by
        rw [List.getD_eq_getElem?_getD, List.getElem?_eq_getElem hy]
        rfl
      rw [hgd]
      exact hdim _ (List.getElem_mem hy)
  · rw [setCell, List.set_eq_of_length_le (Nat.le_of_not_lt hy)]
    exact hdim

theorem cellAtN_bounds (g : Grid) (x y : Nat) (c : Nat)
    (h : cellAtN g x y = some c) :
    ∃ row, g.get? y = some row ∧ row.get? x = some c := by
  unfold cellAtN at h
  cases hrow : g.get? y with
  | none => rw [hrow] at h; simp at h
  | some row =>
    rw [hrow] at h
    exact ⟨row, rfl, h⟩

theorem cellAtN_setCell_self (g : Grid) (x y v c : Nat)
    (h : cellAtN g x y = some c) :
    cellAtN (setCell g x y v) x y = some v := by
  obtain ⟨row, hrow, hcell⟩ := cellAtN_bounds g x y c h
  have hy : y < g.length := by
    by_contra hy
    rw [List.get?_eq_getElem?, List.getElem?_eq_none (Nat.le_of_not_lt hy)] at hrow
    exact Option.noConfusion hrow
  have hx : x < row.length := by
    by_contra hx
    rw [List.get?_eq_getElem?, List.getElem?_eq_none (Nat.le_of_not_lt hx)] at hcell
    exact Option.noConfusion hcell
  have hgetD : g.getD y [] = row := by
    rw [List.getD_eq_getElem?_getD, ← List.get?_eq_getElem?, hrow]
    rfl
  unfold cellAtN setCell
  rw [hgetD, List.get?_eq_getElem?, List.getElem?_set_self (by simpa using hy)]
  simp [List.get?_eq_getElem?, List.getElem?_set_self (by simpa using hx)]

theorem cellAtN_setCell_ne (g : Grid) (x y x' y' v : Nat)
    (h : ¬(x' = x ∧ y' = y)) :
    cellAtN (setCell g x y v) x' y' = cellAtN g x' y' := by
  unfold cellAtN setCell
  by_cases hyy : y' = y
  · subst hyy
    have hx : ¬ x' = x := fun hx => h ⟨hx, rfl⟩
    rw [List.get?_eq_getElem?, List.getElem?_set_self']
    rw [List.get?_eq_getElem?]
    cases hrow : g[y']? with
    | none => rfl
    | some row =>
      have hgetD : g.getD y' [] = row := by
        rw [List.getD_eq_getElem?_getD, hrow]
        rfl
      simp only [Option.map_some, Option.some_bind, Function.const_apply]
      rw [hgetD, List.get?_eq_getElem?, List.get?_eq_getElem?,
        List.getElem?_set_ne (fun he => hx he.symm)]
  · rw [List.get?_eq_getElem?, List.getElem?_set_ne (fun he => hyy he.symm),
      ← List.get?_eq_getElem?]

end BotArena

namespace BotArena

/-- Any property preserved by every kept obstacle placement is an
invariant of the placement loop. -/
theorem obstacleLoop_preserves (rows cols n : Nat) (rand : Nat → Nat × Nat)
    (P : Grid → Prop)
    (hstep : ∀ g x y, P g → cellAtN g x y = some 0 →
      ¬((x ≤ 1 ∧ y ≤ 1) ∨ (cols - 2 ≤ x ∧ rows - 2 ≤ y)) →
      hasPath (setCell g x y 1) ⟨0, 0⟩ ⟨(cols : Int) - 1, (rows : Int) - 1⟩
        = true →
      P (setCell g x y 1)) :
    ∀ fuel placed k g, P g →
      P (obstacleLoop rows cols n rand fuel placed k g) := by
  intro fuel
  induction fuel with
  | zero => intro placed k g hP; exact hP
  | succ f ih =>
    intro placed k g hP
    unfold obstacleLoop
    dsimp only
    split
    · exact hP
    · split
      · exact ih _ _ _ hP
      · split
        · exact ih _ _ _ hP
        · split
          · rename_i hplaced hcell hbuf hpath
            refine ih _ _ _ (hstep g (rand k).1 (rand k).2 hP ?_ hbuf hpath)
            simpa using hcell
          · exact ih _ _ _ hP

theorem initialGrid_length (rows cols : Nat) :
    (initialGrid rows cols).length = rows := by
  unfold initialGrid
  rw [setCell_length, setCell_length, List.length_replicate]

theorem initialGrid_row_length (rows cols : Nat) :
    ∀ row ∈ initialGrid rows cols, row.length = cols := by
  unfold initialGrid
  apply setCell_row_length
  apply setCell_row_length
  intro row hrow
  rw [List.eq_of_mem_replicate hrow, List.length_replicate]

theorem generateGrid_length (rows cols n : Nat) (rand : Nat → Nat × Nat) :
    (generateGrid rows cols n rand).length = rows := by
  unfold generateGrid
  have h := obstacleLoop_preserves rows cols n rand
    (fun g => g.length = rows)
    (fun g x y hP _ _ _ => by
      show (setCell g x y 1).length = rows
      rw [setCell_length]; exact hP)
    (n * 10) 0 0 (initialGrid rows cols) (initialGrid_length rows cols)
  exact h

theorem generateGrid_row_length (rows cols n : Nat) (rand : Nat → Nat × Nat) :
    ∀ row ∈ generateGrid rows cols n rand, row.length = cols := by
  unfold generateGrid
  exact obstacleLoop_preserves rows cols n rand
    (fun g => ∀ row ∈ g, row.length = cols)
    (fun g x y hP _ _ _ => setCell_row_length g x y 1 cols hP)
    (n * 10) 0 0 (initialGrid rows cols) (initialGrid_row_length rows cols)

theorem generateGrid_start_cell (rows cols n : Nat) (rand : Nat → Nat × Nat) :
    cellAtN (generateGrid rows cols n rand) 0 0
      = cellAtN (initialGrid rows cols) 0 0 := by
  unfold generateGrid
  exact obstacleLoop_preserves rows cols n rand
    (fun g => cellAtN g 0 0 = cellAtN (initialGrid rows cols) 0 0)
    (fun g x y hP _ hbuf _ => by
      show cellAtN (setCell g x y 1) 0 0 = cellAtN (initialGrid rows cols) 0 0
      rw [cellAtN_setCell_ne g x y 0 0 1 ?_]
      · exact hP
      · rintro ⟨rfl, rfl⟩
        exact hbuf (Or.inl ⟨Nat.zero_le 1, Nat.zero_le 1⟩))
    (n * 10) 0 0 (initialGrid rows cols) rfl

end BotArena

namespace BotArena

theorem initialGrid_start (rows cols : Nat) (hr : 1 ≤ rows) (hc : 1 ≤ cols) :
    cellAtN (initialGrid rows cols) 0 0 = some 2 ∨
    cellAtN (initialGrid rows cols) 0 0 = some 3 := by
  have hbase : cellAtN (List.replicate rows (List.replicate cols (0 : Nat))) 0 0
      = some 0 := by
    unfold cellAtN
    rw [List.get?_eq_getElem?, List.getElem?_replicate, if_pos (by omega)]
    simp only [Option.some_bind]
    rw [List.get?_eq_getElem?, List.getElem?_replicate, if_pos (by omega)]
  have h2 : cellAtN (setCell (List.replicate rows (List.replicate cols 0)) 0 0 2)
      0 0 = some 2 := cellAtN_setCell_self _ _ _ _ _ hbase
  unfold initialGrid
  by_cases hgoal : (0 : Nat) = cols - 1 ∧ (0 : Nat) = rows - 1
  · right
    obtain ⟨hx, hy⟩ := hgoal
    rw [← hx, ← hy]
    exact cellAtN_setCell_self _ _ _ _ _ h2
  · left
    rw [cellAtN_setCell_ne _ _ _ _ _ _ hgoal]
    exact h2

/-- In-bounds and not an obstacle: the claim's live-cell invariant. -/
def PosOK (grid : Grid) (p : Pos) : Prop :=
  0 ≤ p.x ∧ p.x < (headLen grid : Int) ∧ 0 ≤ p.y ∧ p.y < (grid.length : Int) ∧
    cellAt grid p.x p.y ≠ some 1

theorem PosOK_of_checks (grid : Grid) (p : Pos)
    (hbound : checkBoundaryCollision p grid.length (headLen grid) = false)
    (hobs : checkObstacleCollision grid p = false) : PosOK grid p := by
  unfold checkBoundaryCollision at hbound
  simp only [decide_eq_false_iff_not, not_or, not_lt, not_le] at hbound
  obtain ⟨h1, h2, h3, h4⟩ := hbound
  refine ⟨h1, h2, h3, h4, ?_⟩
  unfold checkObstacleCollision at hobs
  rw [if_neg (by omega : ¬(p.y < 0 ∨ (grid.length : Int) ≤ p.y ∨ p.x < 0 ∨
      (headLen grid : Int) ≤ p.x))] at hobs
  simpa using hobs

end BotArena

namespace BotArena

theorem mapGet_mapSet_cases {α : Type} (m : List (String × α)) (k b : String)
    (v w : α) (h : mapGet (mapSet m k v) b = some w) :
    (b = k ∧ w = v) ∨ mapGet m b = some w := by
  by_cases hb : b = k
  · subst hb
    rw [mapGet_mapSet_self] at h
    exact Or.inl ⟨rfl, (Option.some_inj.mp h).symm⟩
  · rw [mapGet_mapSet_ne _ _ _ _ hb] at h
    exact Or.inr h

/-- processMove never changes the grid, and changes the live position
map only by moving the submitting bot to a destination that passed the
boundary and obstacle checks. -/
theorem processMove_state_shape (st : GameState) (colls : List (String × Nat))
    (log : List MoveRec) (level now : Nat) (botId : String) (toX toY : Int) :
    (processMove st colls log level now botId toX toY).state.grid = st.grid ∧
    ((processMove st colls log level now botId toX toY).state.botPositions
        = st.botPositions ∨
      (checkBoundaryCollision ⟨toX, toY⟩ st.grid.length (headLen st.grid)
          = false ∧
        checkObstacleCollision st.grid ⟨toX, toY⟩ = false ∧
        (processMove st colls log level now botId toX toY).state.botPositions
          = mapSet st.botPositions botId ⟨toX, toY⟩)) := by
  cases hlive : mapGet st.botPositions botId with
  | none =>
    rw [processMove_eq_err_noBot _ _ _ _ _ _ _ _ hlive]
    exact ⟨rfl, Or.inl rfl⟩
  | some cur =>
    cases hfin : mapGet st.botFinishTimes botId with
    | some t =>
      rw [processMove_eq_err_finished _ _ _ _ _ _ _ _ cur hlive (by simp [hfin])]
      exact ⟨rfl, Or.inl rfl⟩
    | none =>
      cases hadj : isValidMove cur ⟨toX, toY⟩ with
      | false =>
        rw [processMove_eq_err_adj _ _ _ _ _ _ _ _ cur hlive hfin hadj]
        exact ⟨rfl, Or.inl rfl⟩
      | true =>
        cases hbound : checkBoundaryCollision ⟨toX, toY⟩ st.grid.length
            (headLen st.grid) with
        | true =>
          rw [processMove_eq_err_bound _ _ _ _ _ _ _ _ cur hlive hfin hadj hbound]
          exact ⟨rfl, Or.inl rfl⟩
        | false =>
          cases hobs : checkObstacleCollision st.grid ⟨toX, toY⟩ with
          | true =>
            rw [processMove_eq_collision _ _ _ _ _ _ _ _ cur hlive hfin hadj
              hbound hobs]
            exact ⟨rfl, Or.inl rfl⟩
          | false =>
            cases hblock : checkBotCollision
                (st.botPositions.filter
                  fun e => ¬ (mapGet st.botFinishTimes e.1).isSome)
                botId ⟨toX, toY⟩ with
            | some blocker =>
              rw [processMove_eq_blocked _ _ _ _ _ _ _ _ cur blocker hlive hfin
                hadj hbound hobs hblock]
              exact ⟨rfl, Or.inl rfl⟩
            | none =>
              by_cases hend : (⟨toX, toY⟩ : Pos) = st.endPosition
              · rw [processMove_eq_finish _ _ _ _ _ _ _ _ cur hlive hfin hadj
                  hbound hobs hblock hend]
                exact ⟨rfl, Or.inr ⟨rfl, rfl, rfl⟩⟩
              · rw [processMove_eq_advance _ _ _ _ _ _ _ _ cur hlive hfin hadj
                  hbound hobs hblock hend]
                exact ⟨rfl, Or.inr ⟨rfl, rfl, rfl⟩⟩

/-- The in-memory effects threaded through a sequence of processMove
calls: the round runtime state, the persisted collision counters and
the persisted move log. -/
structure SysState where
  st : GameState
  colls : List (String × Nat)
  log : List MoveRec
deriving DecidableEq, Repr

/-- One submitted move: (botId, toX, toY, value of Date.now()). -/
def stepMove (level : Nat) (s : SysState) (c : String × Int × Int × Nat) :
    SysState :=
  let o := processMove s.st s.colls s.log level c.2.2.2 c.1 c.2.1 c.2.2.1
  ⟨o.state, o.colls, o.log⟩

/-- A whole sequence of submitted moves. -/
def runMoves (level : Nat) (s : SysState)
    (cmds : List (String × Int × Int × Nat)) : SysState :=
  cmds.foldl (stepMove level) s

theorem stepMove_preserves (level : Nat) (s : SysState)
    (c : String × Int × Int × Nat)
    (hInv : ∀ b p, mapGet s.st.botPositions b = some p → PosOK s.st.grid p) :
    (stepMove level s c).st.grid = s.st.grid ∧
    ∀ b p, mapGet (stepMove level s c).st.botPositions b = some p →
      PosOK (stepMove level s c).st.grid p := by
  obtain ⟨hgrid, hpos⟩ := processMove_state_shape s.st s.colls s.log level
    c.2.2.2 c.1 c.2.1 c.2.2.1
  refine ⟨hgrid, ?_⟩
  intro b p hm
  have hm' : mapGet (processMove s.st s.colls s.log level c.2.2.2 c.1 c.2.1
      c.2.2.1).state.botPositions b = some p := hm
  have hgoal : PosOK s.st.grid p → PosOK (stepMove level s c).st.grid p := by
    show PosOK s.st.grid p →
      PosOK (processMove s.st s.colls s.log level c.2.2.2 c.1 c.2.1
        c.2.2.1).state.grid p
    rw [hgrid]
    exact id
  apply hgoal
  rcases hpos with h | ⟨hbound, hobs, h⟩
  · rw [h] at hm'
    exact hInv b p hm'
  · rw [h] at hm'
    rcases mapGet_mapSet_cases _ _ _ _ _ hm' with ⟨rfl, rfl⟩ | hold
    · exact PosOK_of_checks _ _ hbound hobs
    · exact hInv b p hold

theorem runMoves_preserves (level : Nat)
    (cmds : List (String × Int × Int × Nat)) : ∀ (s : SysState),
    (∀ b p, mapGet s.st.botPositions b = some p → PosOK s.st.grid p) →
    ∀ b p, mapGet (runMoves level s cmds).st.botPositions b = some p →
      PosOK (runMoves level s cmds).st.grid p := by
  induction cmds with
  | nil => intro s hInv; exact hInv
  | cons c rest ih =>
    intro s hInv
    exact ih (stepMove level s c) (stepMove_preserves level s c hInv).2

end BotArena

namespace BotArena

theorem mapGet_const_pos (bots : List String) (v : Pos) (b : String) (p : Pos)
    (h : mapGet (bots.map fun s => (s, v)) b = some p) : p = v := by
  induction bots with
  | nil => simp [mapGet] at h
  | cons s rest ih =>
    by_cases hs : s = b
    · rw [List.map_cons, mapGet_cons_pos _ _ _ hs] at h
      exact (Option.some_inj.mp h).symm
    · rw [List.map_cons, mapGet_cons_neg _ _ _ hs] at h
      exact ih h

theorem generateGrid_headLen (rows cols n : Nat) (rand : Nat → Nat × Nat)
    (hr : 1 ≤ rows) : headLen (generateGrid rows cols n rand) = cols := by
  have hlen := generateGrid_length rows cols n rand
  have hrow := generateGrid_row_length rows cols n rand
  rcases hG : generateGrid rows cols n rand with _ | ⟨r0, rest⟩
  · rw [hG] at hlen
    simp at hlen
    omega
  · rw [hG] at hrow
    show r0.length = cols
    exact hrow r0 (List.mem_cons_self _ _)

theorem cellAt_zero_zero (g : Grid) : cellAt g 0 0 = cellAtN g 0 0 := by
  simp [cellAt, cellAtN]

theorem generateGrid_start_not_obstacle (rows cols n : Nat)
    (rand : Nat → Nat × Nat) (hr : 1 ≤ rows) (hc : 1 ≤ cols) :
    cellAt (generateGrid rows cols n rand) 0 0 ≠ some 1 := by
  rw [cellAt_zero_zero, generateGrid_start_cell rows cols n rand]
  rcases initialGrid_start rows cols hr hc with h | h <;> rw [h] <;> simp

/-- C4: in every round runtime state reachable by starting a level
(which seeds each active participant at the start cell (0,0)) and then
applying any sequence of processMove calls, every participant's live
position lies within the grid bounds and is never an obstacle cell. -/
theorem C4_live_positions_walkable (rows cols n : Nat)
    (rand : Nat → Nat × Nat) (bots : List String) (now level : Nat)
    (colls0 : List (String × Nat)) (log0 : List MoveRec)
    (cmds : List (String × Int × Int × Nat))
    (hrows : 1 ≤ rows) (hcols : 1 ≤ cols) :
    ∀ b p, mapGet (runMoves level
        ⟨startLevel rows cols n rand bots now, colls0, log0⟩ cmds).st.botPositions
        b = some p →
      PosOK (runMoves level
        ⟨startLevel rows cols n rand bots now, colls0, log0⟩ cmds).st.grid p := by
  apply runMoves_preserves
  intro b p hm
  have hp := mapGet_const_pos bots ⟨0, 0⟩ b p hm
  subst hp
  refine ⟨le_refl 0, ?_, le_refl 0, ?_, ?_⟩
  · show (0 : Int) < (headLen (generateGrid rows cols n rand) : Int)
    rw [generateGrid_headLen rows cols n rand hrows]
    exact_mod_cast hcols
  · show (0 : Int) < ((generateGrid rows cols n rand).length : Int)
    rw [generateGrid_length rows cols n rand]
    exact_mod_cast hrows
  · exact generateGrid_start_not_obstacle rows cols n rand hrows hcols

theorem C4_witness :
    PosOK (runMoves 1
        ⟨startLevel 3 3 1 (fun _ => (1, 1)) ["A"] 100, [], []⟩
        [("A", 1, 0, 120), ("A", 7, 7, 130), ("A", 2, 0, 140)]).st.grid
      ⟨2, 0⟩ :=
  C4_live_positions_walkable 3 3 1 (fun _ => (1, 1)) ["A"] 100 1 [] []
    [("A", 1, 0, 120), ("A", 7, 7, 130), ("A", 2, 0, 140)]
    (by decide) (by decide) "A" ⟨2, 0⟩ (by decide)

end BotArena

namespace BotArena

/-! ## A* correctness: path lemmas -/

theorem Adjacent.symm {a b : Pos} (h : Adjacent a b) : Adjacent b a := by
  unfold Adjacent at *
  omega

theorem heuristic_self (a : Pos) : heuristic a a = 0 := by
  unfold heuristic
  omega

theorem heuristic_adjacent (a b e : Pos) (h : Adjacent a b) :
    heuristic a e ≤ heuristic b e + 1 := by
  unfold Adjacent at h
  unfold heuristic
  have hx : (a.x - e.x).natAbs ≤ (a.x - b.x).natAbs + (b.x - e.x).natAbs := by
    have := Int.natAbs_add_le (a.x - b.x) (b.x - e.x)
    rw [show a.x - b.x + (b.x - e.x) = a.x - e.x by ring] at this
    exact this
  have hy : (a.y - e.y).natAbs ≤ (a.y - b.y).natAbs + (b.y - e.y).natAbs := by
    have := Int.natAbs_add_le (a.y - b.y) (b.y - e.y)
    rw [show a.y - b.y + (b.y - e.y) = a.y - e.y by ring] at this
    exact this
  omega

theorem validPath_ne_nil {grid : Grid} {l : List Pos} {s t : Pos}
    (h : ValidPath grid l s t) : l ≠ [] := by
  intro he
  subst he
  exact Option.noConfusion h.1

theorem validPath_head {grid : Grid} {l : List Pos} {s t : Pos}
    (h : ValidPath grid l s t) : ∃ tl, l = s :: tl := by
  cases l with
  | nil => exact absurd h.1 (by simp)
  | cons a tl =>
    have : a = s := by simpa using h.1
    exact ⟨tl, by rw [this]⟩

theorem validPath_start_mem {grid : Grid} {l : List Pos} {s t : Pos}
    (h : ValidPath grid l s t) : s ∈ l := by
  obtain ⟨tl, rfl⟩ := validPath_head h
  exact List.mem_cons_self _ _

theorem validPath_end_mem {grid : Grid} {l : List Pos} {s t : Pos}
    (h : ValidPath grid l s t) : t ∈ l := by
  have h2 := h.2.1
  exact List.mem_of_mem_getLast? (h2 ▸ rfl)

theorem validPath_start_walkable {grid : Grid} {l : List Pos} {s t : Pos}
    (h : ValidPath grid l s t) : isWalkable grid s.x s.y = true :=
  h.2.2.1 s (validPath_start_mem h)

theorem validPath_end_walkable {grid : Grid} {l : List Pos} {s t : Pos}
    (h : ValidPath grid l s t) : isWalkable grid t.x t.y = true :=
  h.2.2.1 t (validPath_end_mem h)

theorem validPath_singleton {grid : Grid} {s : Pos}
    (h : isWalkable grid s.x s.y = true) : ValidPath grid [s] s s := by
  refine ⟨rfl, rfl, ?_, List.chain'_singleton s⟩
  intro p hp
  rw [List.mem_singleton.mp hp]
  exact h

theorem validPath_append_one {grid : Grid} {l : List Pos} {s t q : Pos}
    (h : ValidPath grid l s t) (hadj : Adjacent t q)
    (hw : isWalkable grid q.x q.y = true) :
    ValidPath grid (l ++ [q]) s q := by
  obtain ⟨hh, hlast, hwalk, hchain⟩ := h
  refine ⟨?_, ?_, ?_, ?_⟩
  · obtain ⟨tl, rfl⟩ := validPath_head ⟨hh, hlast, hwalk, hchain⟩
    rfl
  · exact List.getLast?_concat _
  · intro p hp
    rcases List.mem_append.mp hp with hl | hr
    · exact hwalk p hl
    · rw [List.mem_singleton.mp hr]
      exact hw
  · rw [List.chain'_append]
    refine ⟨hchain, List.chain'_singleton q, ?_⟩
    intro x hx y hy
    rw [hlast] at hx
    have hx' : t = x := by simpa using hx
    have hy' : q = y := by simpa using hy
    rw [← hx', ← hy']
    exact hadj

end BotArena

namespace BotArena

theorem not_nodup_split {α : Type} [DecidableEq α] (l : List α)
    (h : ¬ l.Nodup) :
    ∃ (a : α) (l1 l2 l3 : List α), l = l1 ++ a :: l2 ++ a :: l3 := by
  induction l with
  | nil => exact absurd List.nodup_nil h
  | cons x rest ih =>
    by_cases hx : x ∈ rest
    · obtain ⟨l2, l3, rfl⟩ := List.append_of_mem hx
      exact ⟨x, [], l2, l3, rfl⟩
    · have hrest : ¬ rest.Nodup := fun hn => h (List.nodup_cons.mpr ⟨hx, hn⟩)
      obtain ⟨a, l1, l2, l3, rfl⟩ := ih hrest
      exact ⟨a, x :: l1, l2, l3, rfl⟩

theorem getLast?_append_right {α : Type} (l l₂ : List α) (h : l₂ ≠ []) :
    (l ++ l₂).getLast? = l₂.getLast? := by
  rw [List.getLast?_append]
  cases hl : l₂.getLast? with
  | none => exact absurd (List.getLast?_eq_none_iff.mp hl) h
  | some x => rfl

theorem validPath_cut {grid : Grid} {s t a : Pos} {l1 l2 l3 : List Pos}
    (h : ValidPath grid (l1 ++ a :: l2 ++ a :: l3) s t) :
    ValidPath grid (l1 ++ a :: l3) s t := by
  obtain ⟨hh, hlast, hwalk, hchain⟩ := h
  refine ⟨?_, ?_, ?_, ?_⟩
  · cases l1 with
    | nil => simpa using hh
    | cons b tl => simpa using hh
  · rw [getLast?_append_right l1 (a :: l3) (by simp)]
    rw [show l1 ++ a :: l2 ++ a :: l3 = (l1 ++ a :: l2) ++ (a :: l3) by simp] at hlast
    rw [getLast?_append_right (l1 ++ a :: l2) (a :: l3) (by simp)] at hlast
    exact hlast
  · intro p hp
    apply hwalk
    rcases List.mem_append.mp hp with h1 | h2
    · simp [h1]
    · rcases List.mem_cons.mp h2 with rfl | h3
      · simp
      · simp [h3]
  · have hre : l1 ++ a :: l2 ++ a :: l3 = l1 ++ (a :: (l2 ++ (a :: l3))) := by
      simp
    rw [hre] at hchain
    rw [List.chain'_split] at hchain
    obtain ⟨hc1, hc2⟩ := hchain
    have hre2 : a :: (l2 ++ (a :: l3)) = (a :: l2) ++ (a :: l3) := by simp
    rw [hre2, List.chain'_split] at hc2
    rw [List.chain'_split]
    exact ⟨hc1, hc2.2⟩

theorem validPath_simplify {grid : Grid} {s t : Pos} :
    ∀ (m : Nat) (l : List Pos), l.length ≤ m → ValidPath grid l s t →
      ∃ l', ValidPath grid l' s t ∧ l'.Nodup ∧ l'.length ≤ l.length := by
  intro m
  induction m with
  | zero =>
    intro l hlen h
    have := validPath_ne_nil h
    have : 0 < l.length := List.length_pos.mpr this
    omega
  | succ k ih =>
    intro l hlen h
    by_cases hnd : l.Nodup
    · exact ⟨l, h, hnd, le_refl _⟩
    · obtain ⟨a, l1, l2, l3, rfl⟩ := not_nodup_split l hnd
      have hcut := validPath_cut h
      have hshort : (l1 ++ a :: l3).length ≤ k := by
        simp only [List.length_append, List.length_cons] at hlen ⊢
        omega
      obtain ⟨l', hl', hnd', hlen'⟩ := ih _ hshort hcut
      refine ⟨l', hl', hnd', ?_⟩
      simp only [List.length_append, List.length_cons] at hlen' ⊢
      omega

theorem chain'_get?_adjacent {l : List Pos} (hchain : l.Chain' Adjacent)
    (k : Nat) (a b : Pos) (ha : l.get? k = some a) (hb : l.get? (k + 1) = some b) :
    Adjacent a b := by
  have hk1 : k + 1 < l.length := by
    rw [List.get?_eq_getElem?] at hb
    exact (List.getElem?_eq_some_iff.mp hb).1
  have hk : k < l.length := by omega
  rw [List.get?_eq_getElem?, List.getElem?_eq_getElem hk] at ha
  rw [List.get?_eq_getElem?, List.getElem?_eq_getElem hk1] at hb
  have hadj := List.chain'_iff_get.mp hchain k (by omega)
  have ha' : l[k] = a := Option.some_inj.mp ha
  have hb' : l[k + 1] = b := Option.some_inj.mp hb
  rw [← ha', ← hb']
  exact hadj

end BotArena

namespace BotArena

theorem chain'_heuristic {l : List Pos} (hchain : l.Chain' Adjacent) (e : Pos) :
    ∀ (k j : Nat) (a b : Pos), j ≤ k → l.get? j = some a →
      l.get? k = some b → heuristic a e ≤ (k - j) + heuristic b e := by
  intro k
  induction k with
  | zero =>
    intro j a b hj ha hb
    have : j = 0 := Nat.le_zero.mp hj
    subst this
    rw [ha] at hb
    rw [Option.some_inj.mp hb]
    omega
  | succ k ih =>
    intro j a b hj ha hb
    rcases Nat.lt_or_ge j (k + 1) with hlt | hge
    · have hjk : j ≤ k := by omega
      have hk1 : k + 1 < l.length := by
        rw [List.get?_eq_getElem?] at hb
        exact (List.getElem?_eq_some_iff.mp hb).1
      have hkc : l.get? k = some l[k] := by
        rw [List.get?_eq_getElem?, List.getElem?_eq_getElem (by omega)]
      have h1 := ih j a l[k] hjk ha hkc
      have h2 := chain'_get?_adjacent hchain k l[k] b hkc hb
      have h3 := heuristic_adjacent l[k] b e h2
      omega
    · have : j = k + 1 := by omega
      subst this
      rw [ha] at hb
      rw [Option.some_inj.mp hb]
      omega

end BotArena

namespace BotArena

/-! ## A* correctness: findLowestF returns a minimal-f index -/

theorem getD_append_left {α : Type} (l1 l2 : List α) (i : Nat)
    (d : α) (h : i < l1.length) : (l1 ++ l2).getD i d = l1.getD i d := by
  rw [List.getD_eq_getElem?_getD, List.getD_eq_getElem?_getD,
    List.getElem?_append_left h]

theorem getD_append_mid {α : Type} (l1 l2 : List α) (n : α)
    (d : α) : (l1 ++ n :: l2).getD l1.length d = n := by
  rw [List.getD_eq_getElem?_getD, List.getElem?_append_right (le_refl _)]
  simp

theorem findLowestFGo_spec (d : PathNode) :
    ∀ (rest pre : List PathNode) (best : PathNode) (bestIdx : Nat),
      bestIdx < pre.length → (pre ++ rest).getD bestIdx d = best →
      (findLowestFGo rest best bestIdx pre.length < (pre ++ rest).length ∧
        ((pre ++ rest).getD (findLowestFGo rest best bestIdx pre.length) d).f
          ≤ best.f) ∧
      ∀ n ∈ rest,
        ((pre ++ rest).getD (findLowestFGo rest best bestIdx pre.length) d).f
          ≤ n.f := by
  intro rest
  induction rest with
  | nil =>
    intro pre best bestIdx hlt hbest
    unfold findLowestFGo
    refine ⟨⟨by simpa using hlt, ?_⟩, by simp⟩
    rw [hbest]
  | cons n rest' ih =>
    intro pre best bestIdx hlt hbest
    have hassoc : pre ++ n :: rest' = (pre ++ [n]) ++ rest' := by simp
    have hn : ((pre ++ [n]) ++ rest').getD pre.length d = n := by
      rw [List.append_assoc, List.singleton_append]
      exact getD_append_mid pre rest' n d
    have hlen1 : pre.length < (pre ++ [n]).length := by simp
    unfold findLowestFGo
    by_cases hf : n.f < best.f
    · rw [if_pos hf]
      have hres := ih (pre ++ [n]) n pre.length hlen1 hn
      rw [List.append_assoc, List.singleton_append] at hres
      rw [show (pre ++ [n]).length = pre.length + 1 by simp] at hres
      refine ⟨⟨hres.1.1, le_trans hres.1.2 (le_of_lt hf)⟩, ?_⟩
      intro m hm
      rcases List.mem_cons.mp hm with rfl | hm'
      · exact hres.1.2
      · exact hres.2 m hm'
    · rw [if_neg hf]
      by_cases htie : n.f = best.f ∧ n.h < best.h
      · rw [if_pos htie]
        have hres := ih (pre ++ [n]) n pre.length hlen1 hn
        rw [List.append_assoc, List.singleton_append] at hres
        rw [show (pre ++ [n]).length = pre.length + 1 by simp] at hres
        refine ⟨⟨hres.1.1, le_trans hres.1.2 (le_of_eq htie.1)⟩, ?_⟩
        intro m hm
        rcases List.mem_cons.mp hm with rfl | hm'
        · exact hres.1.2
        · exact hres.2 m hm'
      · rw [if_neg htie]
        have hbest' : ((pre ++ [n]) ++ rest').getD bestIdx d = best := by
          rw [getD_append_left _ _ _ _ (by simp; omega)]
          rw [getD_append_left _ _ _ _ hlt]
          rw [getD_append_left _ _ _ _ hlt] at hbest
          exact hbest
        have hres := ih (pre ++ [n]) best bestIdx
          (by simp; omega) hbest'
        rw [List.append_assoc, List.singleton_append] at hres
        rw [show (pre ++ [n]).length = pre.length + 1 by simp] at hres
        refine ⟨⟨hres.1.1, hres.1.2⟩, ?_⟩
        intro m hm
        rcases List.mem_cons.mp hm with rfl | hm'
        · exact le_trans hres.1.2 (by omega)
        · exact hres.2 m hm'

theorem findLowestF_spec (d : PathNode) (o : PathNode) (os : List PathNode) :
    findLowestF (o :: os) < (o :: os).length ∧
    ∀ n ∈ o :: os, ((o :: os).getD (findLowestF (o :: os)) d).f ≤ n.f := by
  have h := findLowestFGo_spec d os [o] o 0 (by simp) (by simp)
  simp only [List.singleton_append, List.length_singleton] at h
  refine ⟨h.1.1, ?_⟩
  intro n hn
  rcases List.mem_cons.mp hn with rfl | hn'
  · exact h.1.2
  · exact h.2 n hn'

end BotArena

namespace BotArena

/-! ## A* correctness: relaxation lemmas -/

theorem Pos.eta (p : Pos) : (⟨p.x, p.y⟩ : Pos) = p := rfl

theorem set_self {α : Type} (l : List α) (k : Nat) (v : α)
    (h : l.get? k = some v) : l.set k v = l := by
  induction l generalizing k with
  | nil => rfl
  | cons a rest ih =>
    cases k with
    | zero =>
      have : a = v := by simpa using h
      rw [← this]
      rfl
    | succ j =>
      have := ih j (by simpa using h)
      simp [List.set, this]

/-- The fields the loop invariant tracks for every open node. -/
def OpenOK (grid : Grid) (start endP : Pos) (closed : List Pos)
    (S : List PathNode) : Prop :=
  (∀ n ∈ S, ValidPath grid n.path start n.pos ∧ n.path.length = n.g + 1 ∧
    n.h = heuristic n.pos endP ∧ n.f = n.g + n.h) ∧
  (S.map PathNode.pos).Nodup ∧ (∀ n ∈ S, n.pos ∉ closed)

theorem relaxOne_closed (endP : Pos) (closed : List Pos) (cur : PathNode)
    (S : List PathNode) (np : Pos) (h : np ∈ closed) :
    relaxOne endP closed cur S np = S := by
  unfold relaxOne
  rw [if_pos h]

theorem relaxOne_mem (endP : Pos) (closed : List Pos) (cur : PathNode)
    (S : List PathNode) (np : Pos) :
    ∀ n' ∈ relaxOne endP closed cur S np,
      n' ∈ S ∨ (n'.pos = np ∧ n'.g = cur.g + 1 ∧
        n'.path = cur.path ++ [np] ∧ n'.f = n'.g + n'.h ∧ np ∉ closed ∧
        (n'.h = heuristic np endP ∨ ∃ o ∈ S, o.pos = np ∧ n'.h = o.h)) := by
  intro n' hn'
  unfold relaxOne at hn'
  split at hn'
  · exact Or.inl hn'
  · rename_i hclosed
    cases hidx : S.findIdx? (fun n => n.x = np.x ∧ n.y = np.y) with
    | none =>
      rw [hidx] at hn'
      simp only at hn'
      rcases List.mem_append.mp hn' with h1 | h2
      · exact Or.inl h1
      · right
        rw [List.mem_singleton.mp h2]
        exact ⟨rfl, rfl, rfl, rfl, hclosed, Or.inl rfl⟩
    | some k =>
      rw [hidx] at hn'
      obtain ⟨hk, hpk, -⟩ := List.findIdx?_eq_some_iff_getElem.mp hidx
      have hgetD : S.getD k ⟨0, 0, 0, 0, 0, []⟩ = S[k] := by
        rw [List.getD_eq_getElem?_getD, List.getElem?_eq_getElem hk]
        rfl
      have hposk : S[k].pos = np := by
        simp only [decide_eq_true_eq] at hpk
        unfold PathNode.pos
        rw [hpk.1, hpk.2]
      simp only [hgetD] at hn'
      split at hn'
      · rcases List.mem_or_eq_of_mem_set hn' with h1 | h2
        · exact Or.inl h1
        · right
          subst h2
          refine ⟨?_, rfl, rfl, rfl, hclosed,
            Or.inr ⟨S[k], List.getElem_mem hk, hposk, rfl⟩⟩
          show (⟨S[k].x, S[k].y⟩ : Pos) = np
          rw [show (⟨S[k].x, S[k].y⟩ : Pos) = S[k].pos from rfl]
          exact hposk
      · exact Or.inl hn'

end BotArena

namespace BotArena

theorem Pos.ext' {a b : Pos} (hx : a.x = b.x) (hy : a.y = b.y) : a = b := by
  cases a; cases b
  simp_all

theorem relaxOne_posList (endP : Pos) (closed : List Pos) (cur : PathNode)
    (S : List PathNode) (np : Pos) :
    (relaxOne endP closed cur S np).map PathNode.pos = S.map PathNode.pos ∨
    ((relaxOne endP closed cur S np).map PathNode.pos
        = S.map PathNode.pos ++ [np] ∧ np ∉ S.map PathNode.pos) := by
  unfold relaxOne
  split
  · exact Or.inl rfl
  · cases hidx : S.findIdx? (fun n => n.x = np.x ∧ n.y = np.y) with
    | none =>
      right
      constructor
      · simp only [List.map_append, List.map_cons, List.map_nil]
        rfl
      · intro hmem
        obtain ⟨o, ho, hop⟩ := List.mem_map.mp hmem
        have := List.findIdx?_eq_none_iff.mp hidx o ho
        simp only [decide_eq_false_iff_not, not_and] at this
        have hx : o.x = np.x := by rw [← hop]; rfl
        have hy : o.y = np.y := by rw [← hop]; rfl
        exact absurd hy (this hx)
    | some k =>
      obtain ⟨hk, hpk, -⟩ := List.findIdx?_eq_some_iff_getElem.mp hidx
      have hgetD : S.getD k ⟨0, 0, 0, 0, 0, []⟩ = S[k] := by
        rw [List.getD_eq_getElem?_getD, List.getElem?_eq_getElem hk]
        rfl
      simp only [hgetD]
      split
      · left
        rw [List.map_set]
        apply set_self
        rw [List.get?_eq_getElem?, List.getElem?_map,
          List.getElem?_eq_getElem hk]
        rfl
      · exact Or.inl rfl

end BotArena

namespace BotArena

theorem mem_set_self {α : Type} (l : List α) (k : Nat) (v : α)
    (h : k < l.length) : v ∈ l.set k v := by
  have h' : k < (l.set k v).length := by rw [List.length_set]; exact h
  have heq : (l.set k v)[k] = v := List.getElem_set_self h'
  have hm := List.getElem_mem h'
  rwa [heq] at hm

theorem mem_set_of_ne {α : Type} (l : List α) (k j : Nat) (v : α)
    (hj : j < l.length) (hne : k ≠ j) : l[j] ∈ l.set k v := by
  have hj' : j < (l.set k v).length := by rw [List.length_set]; exact hj
  have heq : (l.set k v)[j] = l[j] := List.getElem_set_ne hne hj'
  have hm := List.getElem_mem hj'
  rwa [heq] at hm

theorem relaxOne_OpenOK (grid : Grid) (start endP : Pos) (closed : List Pos)
    (cur : PathNode) (S : List PathNode) (np : Pos)
    (hOK : OpenOK grid start endP closed S)
    (hcur : ValidPath grid cur.path start cur.pos)
    (hclen : cur.path.length = cur.g + 1)
    (hw : isWalkable grid np.x np.y = true) (hadj : Adjacent cur.pos np) :
    OpenOK grid start endP closed (relaxOne endP closed cur S np) := by
  obtain ⟨hA, hB, hC⟩ := hOK
  refine ⟨?_, ?_, ?_⟩
  · intro n' hn'
    rcases relaxOne_mem endP closed cur S np n' hn' with hold |
      ⟨hpos, hg, hpath, hf, hncl, hh⟩
    · exact hA n' hold
    · have hhval : n'.h = heuristic n'.pos endP := by
        rcases hh with h1 | ⟨o, ho, hop, h2⟩
        · rw [h1, hpos]
        · rw [h2, (hA o ho).2.2.1, hop, hpos]
      refine ⟨?_, ?_, hhval, hf⟩
      · rw [hpath, hpos]
        exact validPath_append_one hcur hadj hw
      · rw [hpath, List.length_append, hclen, hg]
        rfl
  · rcases relaxOne_posList endP closed cur S np with heq | ⟨heq, hnotin⟩
    · rw [heq]; exact hB
    · rw [heq, List.nodup_append]
      exact ⟨hB, List.nodup_singleton np, by simpa using hnotin⟩
  · intro n' hn'
    rcases relaxOne_mem endP closed cur S np n' hn' with hold |
      ⟨hpos, _, _, _, hncl, _⟩
    · exact hC n' hold
    · rw [hpos]; exact hncl

theorem relaxOne_mono (endP : Pos) (closed : List Pos) (cur : PathNode)
    (S : List PathNode) (np : Pos) :
    ∀ o ∈ S, ∃ n' ∈ relaxOne endP closed cur S np,
      n'.pos = o.pos ∧ n'.g ≤ o.g := by
  intro o ho
  unfold relaxOne
  split
  · exact ⟨o, ho, rfl, le_refl _⟩
  · cases hidx : S.findIdx? (fun n => n.x = np.x ∧ n.y = np.y) with
    | none => exact ⟨o, List.mem_append_left _ ho, rfl, le_refl _⟩
    | some k =>
      obtain ⟨hk, hpk, -⟩ := List.findIdx?_eq_some_iff_getElem.mp hidx
      have hgetD : S.getD k ⟨0, 0, 0, 0, 0, []⟩ = S[k] := by
        rw [List.getD_eq_getElem?_getD, List.getElem?_eq_getElem hk]
        rfl
      simp only [hgetD]
      split
      · rename_i hlt
        obtain ⟨j, hj⟩ := List.mem_iff_getElem.mp ho
        obtain ⟨hjlen, hjo⟩ := hj
        by_cases hjk : j = k
        · subst hjk
          refine ⟨_, mem_set_self S j _ hjlen, ?_, ?_⟩
          · rw [← hjo]
            rfl
          · rw [← hjo]
            exact le_of_lt hlt
        · refine ⟨o, ?_, rfl, le_refl _⟩
          rw [← hjo]
          exact mem_set_of_ne S k j _ hjlen (fun h => hjk h.symm)
      · exact ⟨o, ho, rfl, le_refl _⟩

theorem relaxOne_cover (endP : Pos) (closed : List Pos) (cur : PathNode)
    (S : List PathNode) (np : Pos) (h : np ∉ closed) :
    ∃ n' ∈ relaxOne endP closed cur S np, n'.pos = np ∧ n'.g ≤ cur.g + 1 := by
  unfold relaxOne
  rw [if_neg h]
  cases hidx : S.findIdx? (fun n => n.x = np.x ∧ n.y = np.y) with
  | none =>
    refine ⟨_, List.mem_append_right _ (List.mem_singleton_self _), ?_, le_refl _⟩
    exact Pos.eta np
  | some k =>
    obtain ⟨hk, hpk, -⟩ := List.findIdx?_eq_some_iff_getElem.mp hidx
    have hgetD : S.getD k ⟨0, 0, 0, 0, 0, []⟩ = S[k] := by
      rw [List.getD_eq_getElem?_getD, List.getElem?_eq_getElem hk]
      rfl
    have hposk : S[k].pos = np := by
      simp only [decide_eq_true_eq] at hpk
      unfold PathNode.pos
      rw [hpk.1, hpk.2]
    simp only [hgetD]
    split
    · refine ⟨_, mem_set_self S k _ hk, ?_, ?_⟩
      · exact hposk
      · exact le_refl _
    · rename_i hnlt
      exact ⟨S[k], List.getElem_mem hk, hposk, Nat.le_of_not_lt hnlt⟩

end BotArena

namespace BotArena

theorem mem_getNeighbors_iff (grid : Grid) (p q : Pos) :
    q ∈ getNeighbors grid p ↔
      isWalkable grid q.x q.y = true ∧ Adjacent p q := by
  unfold getNeighbors
  rw [List.mem_filter]
  constructor
  · rintro ⟨hmem, hw⟩
    refine ⟨hw, ?_⟩
    unfold Adjacent
    simp only [List.mem_cons, List.not_mem_nil, or_false] at hmem
    rcases hmem with rfl | rfl | rfl | rfl <;> dsimp only <;> omega
  · rintro ⟨hw, hadj⟩
    refine ⟨?_, hw⟩
    unfold Adjacent at hadj
    have hcases : (p.x - q.x = 0 ∧ (p.y - q.y = 1 ∨ p.y - q.y = -1)) ∨
        (p.y - q.y = 0 ∧ (p.x - q.x = 1 ∨ p.x - q.x = -1)) := by omega
    rcases hcases with ⟨hx, hy | hy⟩ | ⟨hy, hx | hx⟩
    · have hq : q = ⟨p.x, p.y - 1⟩ :=
        Pos.ext' (by show q.x = p.x; omega) (by show q.y = p.y - 1; omega)
      rw [hq]; simp
    · have hq : q = ⟨p.x, p.y + 1⟩ :=
        Pos.ext' (by show q.x = p.x; omega) (by show q.y = p.y + 1; omega)
      rw [hq]; simp
    · have hq : q = ⟨p.x - 1, p.y⟩ :=
        Pos.ext' (by show q.x = p.x - 1; omega) (by show q.y = p.y; omega)
      rw [hq]; simp
    · have hq : q = ⟨p.x + 1, p.y⟩ :=
        Pos.ext' (by show q.x = p.x + 1; omega) (by show q.y = p.y; omega)
      rw [hq]; simp

theorem relaxFold_OpenOK (grid : Grid) (start endP : Pos) (closed : List Pos)
    (cur : PathNode)
    (hcur : ValidPath grid cur.path start cur.pos)
    (hclen : cur.path.length = cur.g + 1) :
    ∀ (ns : List Pos) (S : List PathNode),
      OpenOK grid start endP closed S →
      (∀ np ∈ ns, isWalkable grid np.x np.y = true ∧ Adjacent cur.pos np) →
      OpenOK grid start endP closed (ns.foldl (relaxOne endP closed cur) S) := by
  intro ns
  induction ns with
  | nil => intro S hOK _; exact hOK
  | cons np rest ih =>
    intro S hOK hns
    rw [List.foldl_cons]
    exact ih _ (relaxOne_OpenOK grid start endP closed cur S np hOK hcur hclen
        (hns np (List.mem_cons_self _ _)).1 (hns np (List.mem_cons_self _ _)).2)
      (fun q hq => hns q (List.mem_cons_of_mem _ hq))

theorem relaxFold_mono (endP : Pos) (closed : List Pos) (cur : PathNode) :
    ∀ (ns : List Pos) (S : List PathNode) (o : PathNode), o ∈ S →
      ∃ n' ∈ ns.foldl (relaxOne endP closed cur) S,
        n'.pos = o.pos ∧ n'.g ≤ o.g := by
  intro ns
  induction ns with
  | nil => intro S o ho; exact ⟨o, ho, rfl, le_refl _⟩
  | cons np rest ih =>
    intro S o ho
    rw [List.foldl_cons]
    obtain ⟨n1, hn1, hp1, hg1⟩ := relaxOne_mono endP closed cur S np o ho
    obtain ⟨n2, hn2, hp2, hg2⟩ := ih _ n1 hn1
    exact ⟨n2, hn2, hp2.trans hp1, hg2.trans hg1⟩

theorem relaxFold_cover (endP : Pos) (closed : List Pos) (cur : PathNode) :
    ∀ (ns : List Pos) (S : List PathNode) (np : Pos), np ∈ ns → np ∉ closed →
      ∃ n' ∈ ns.foldl (relaxOne endP closed cur) S,
        n'.pos = np ∧ n'.g ≤ cur.g + 1 := by
  intro ns
  induction ns with
  | nil => intro S np h; simp at h
  | cons q rest ih =>
    intro S np hmem hncl
    rw [List.foldl_cons]
    rcases List.mem_cons.mp hmem with rfl | hmem'
    · obtain ⟨n1, hn1, hp1, hg1⟩ := relaxOne_cover endP closed cur S np hncl
      obtain ⟨n2, hn2, hp2, hg2⟩ := relaxFold_mono endP closed cur rest _ n1 hn1
      exact ⟨n2, hn2, hp2.trans hp1, hg2.trans hg1⟩
    · exact ih _ np hmem' hncl

end BotArena

namespace BotArena

/-! ## A* correctness: the loop invariant -/

/-- The A* loop invariant: every open node carries a real walkable path
with consistent bookkeeping, open positions are distinct and disjoint
from the closed set, closed positions are distinct walkable cells not
containing the goal, and every nodup route to the goal has an open node
sitting on it at no more than its index's cost with the rest of the
route un-closed. -/
def AInv (grid : Grid) (start endP : Pos) (opens : List PathNode)
    (closed : List Pos) : Prop :=
  OpenOK grid start endP closed opens ∧
  closed.Nodup ∧
  (∀ p ∈ closed, isWalkable grid p.x p.y = true) ∧
  endP ∉ closed ∧
  (∀ P, ValidPath grid P start endP → P.Nodup →
    ∃ j n, n ∈ opens ∧ P.get? j = some n.pos ∧ n.g ≤ j ∧
      ∀ k q, j < k → P.get? k = some q → q ∉ closed)

theorem AInv_initial (grid : Grid) (start endP : Pos)
    (hs : isWalkable grid start.x start.y = true) :
    AInv grid start endP
      [⟨start.x, start.y, 0, heuristic start endP,
        heuristic start endP, [start]⟩] [] := by
  refine ⟨⟨?_, ?_, ?_⟩, List.nodup_nil, by simp, by simp, ?_⟩
  · intro n hn
    rw [List.mem_singleton.mp hn]
    refine ⟨?_, rfl, rfl, by simp⟩
    show ValidPath grid [start] start (⟨start.x, start.y⟩ : Pos)
    rw [Pos.eta]
    exact validPath_singleton hs
  · simp
  · simp
  · intro P hP hnd
    obtain ⟨tl, rfl⟩ := validPath_head hP
    refine ⟨0, _, List.mem_singleton_self _, rfl, le_refl 0, ?_⟩
    intro k q _ _
    exact List.not_mem_nil q

theorem nodup_elements_of_pos (opens : List PathNode)
    (h : (opens.map PathNode.pos).Nodup) : opens.Nodup :=
  List.Nodup.of_map _ h

theorem pos_inj_of_nodup (opens : List PathNode)
    (h : (opens.map PathNode.pos).Nodup) :
    ∀ m ∈ opens, ∀ n ∈ opens, m.pos = n.pos → m = n := by
  intro m hm n hn heq
  exact List.inj_on_of_nodup_map h hm hn heq

end BotArena

namespace BotArena

theorem get?_eq_some_of_getElem {α : Type} (l : List α) (k : Nat)
    (hk : k < l.length) : l.get? k = some l[k] := by
  rw [List.get?_eq_getElem?, List.getElem?_eq_getElem hk]

theorem get?_bound {α : Type} {l : List α} {k : Nat} {a : α}
    (h : l.get? k = some a) : k < l.length := by
  rw [List.get?_eq_getElem?] at h
  exact (List.getElem?_eq_some_iff.mp h).1

theorem get?_val {α : Type} {l : List α} {k : Nat} {a : α}
    (h : l.get? k = some a) : ∃ hk : k < l.length, l[k] = a := by
  have hk := get?_bound h
  rw [get?_eq_some_of_getElem l k hk] at h
  exact ⟨hk, Option.some_inj.mp h⟩

theorem AInv_step (grid : Grid) (start endP : Pos) (o : PathNode)
    (os : List PathNode) (closed : List Pos)
    (hInv : AInv grid start endP (o :: os) closed)
    (hne : ((o :: os).getD (findLowestF (o :: os))
      ⟨0, 0, 0, 0, 0, []⟩).pos ≠ endP) :
    AInv grid start endP
      (relaxAll grid endP
        (((o :: os).getD (findLowestF (o :: os)) ⟨0, 0, 0, 0, 0, []⟩).pos
          :: closed)
        ((o :: os).getD (findLowestF (o :: os)) ⟨0, 0, 0, 0, 0, []⟩)
        ((o :: os).eraseIdx (findLowestF (o :: os))))
      ((((o :: os).getD (findLowestF (o :: os)) ⟨0, 0, 0, 0, 0, []⟩).pos)
        :: closed) := by
  obtain ⟨⟨hA, hB, hC⟩, hCn, hCw, hCe, hF⟩ := hInv
  have hspec := findLowestF_spec ⟨0, 0, 0, 0, 0, []⟩ o os
  set opens := o :: os with hopens_def
  set i := findLowestF opens with hi_def
  have hi : i < opens.length := hspec.1
  set cur := opens.getD i ⟨0, 0, 0, 0, 0, []⟩ with hcur_def
  have hcur_eq : cur = opens[i] := by
    rw [hcur_def, List.getD_eq_getElem?_getD, List.getElem?_eq_getElem hi]
    rfl
  have hcur_mem : cur ∈ opens := by rw [hcur_eq]; exact List.getElem_mem hi
  have hmin : ∀ n ∈ opens, cur.f ≤ n.f := hspec.2
  obtain ⟨hcpath, hclen, hch, hcf⟩ := hA cur hcur_mem
  have hcur_walk : isWalkable grid cur.pos.x cur.pos.y = true :=
    validPath_end_walkable hcpath
  have hcur_ncl : cur.pos ∉ closed := hC cur hcur_mem
  have hopens_nodup : opens.Nodup := nodup_elements_of_pos opens hB
  have hsub' : ∀ n ∈ opens.eraseIdx i, n ∈ opens :=
    fun n hn => (List.eraseIdx_sublist opens i).subset hn
  have hmem' : ∀ n ∈ opens, n ≠ cur → n ∈ opens.eraseIdx i := by
    intro n hn hne'
    rw [List.mem_eraseIdx_iff_get?]
    obtain ⟨j, hjlen, hjeq⟩ := List.mem_iff_getElem.mp hn
    refine ⟨j, ?_, ?_⟩
    · intro hji
      subst hji
      exact hne' (by rw [← hjeq, hcur_eq])
    · rw [get?_eq_some_of_getElem opens j hjlen, hjeq]
  have hOK' : OpenOK grid start endP (cur.pos :: closed) (opens.eraseIdx i) := by
    refine ⟨fun n hn => hA n (hsub' n hn), ?_, ?_⟩
    · exact hB.sublist ((List.eraseIdx_sublist opens i).map _)
    · intro n hn
      have h1 : n.pos ∉ closed := hC n (hsub' n hn)
      have h2 : n.pos ≠ cur.pos := by
        intro heq
        have hn_cur : n = cur :=
          pos_inj_of_nodup opens hB n (hsub' n hn) cur hcur_mem heq
        subst hn_cur
        rw [List.mem_eraseIdx_iff_get?] at hn
        obtain ⟨j, hji, hjeq⟩ := hn
        obtain ⟨hjlen, hjv⟩ := get?_val hjeq
        have heq2 : opens[j] = opens[i] := by rw [hjv, hcur_eq]
        exact hji ((hopens_nodup.getElem_inj_iff).mp heq2)
      simp only [List.mem_cons, not_or]
      exact ⟨h2, h1⟩
  have hns : ∀ np ∈ getNeighbors grid cur.pos,
      isWalkable grid np.x np.y = true ∧ Adjacent cur.pos np :=
    fun np hnp => (mem_getNeighbors_iff grid cur.pos np).mp hnp
  have hOKnew := relaxFold_OpenOK grid start endP (cur.pos :: closed) cur
    hcpath hclen (getNeighbors grid cur.pos) (opens.eraseIdx i) hOK' hns
  refine ⟨hOKnew, List.nodup_cons.mpr ⟨hcur_ncl, hCn⟩, ?_, ?_, ?_⟩
  · intro p hp
    rcases List.mem_cons.mp hp with rfl | hp'
    · exact hcur_walk
    · exact hCw p hp'
  · intro hmem
    rcases List.mem_cons.mp hmem with h | h
    · exact hne h.symm
    · exact hCe h
  · intro P hP hnd
    obtain ⟨j, n, hn, hj, hg, hsuf⟩ := hF P hP hnd
    obtain ⟨hjlen, hPj⟩ := get?_val hj
    by_cases hmemP : cur.pos ∈ P
    · obtain ⟨k₀, hk₀len, hk₀⟩ := List.mem_iff_getElem.mp hmemP
      by_cases hk₀j : k₀ < j
      · have hne' : n ≠ cur := by
          intro heq
          subst heq
          have heq2 : P[k₀] = P[j] := by rw [hk₀, hPj]
          have := (hnd.getElem_inj_iff).mp heq2
          omega
        obtain ⟨n₂, hn₂, hp₂, hg₂⟩ := relaxFold_mono endP (cur.pos :: closed)
          cur (getNeighbors grid cur.pos) (opens.eraseIdx i) n (hmem' n hn hne')
        refine ⟨j, n₂, hn₂, by rw [hp₂]; exact hj, le_trans hg₂ hg, ?_⟩
        intro k q hk hq
        have hkq := hsuf k q hk hq
        obtain ⟨hklen, hPk⟩ := get?_val hq
        have hqne : q ≠ cur.pos := by
          intro heq
          have heq2 : P[k] = P[k₀] := by rw [hPk, heq, hk₀]
          have := (hnd.getElem_inj_iff).mp heq2
          omega
        simp only [List.mem_cons, not_or]
        exact ⟨hqne, hkq⟩
      · have hj_le : j ≤ k₀ := by omega
        have hH := chain'_heuristic hP.2.2.2 endP k₀ j n.pos cur.pos hj_le hj
          (by rw [get?_eq_some_of_getElem P k₀ hk₀len, hk₀])
        have hfmin := hmin n hn
        have hnprops := hA n hn
        have hgcur : cur.g ≤ k₀ := by
          have h1 : cur.f = cur.g + heuristic cur.pos endP := by rw [hcf, hch]
          have h2 : n.f = n.g + heuristic n.pos endP := by
            rw [hnprops.2.2.2, hnprops.2.2.1]
          omega
        have hlastlen : P.length - 1 < P.length := by
          have := validPath_ne_nil hP
          have : 0 < P.length := List.length_pos.mpr this
          omega
        have hlast : P[P.length - 1] = endP := by
          have h2 := hP.2.1
          rw [List.getLast?_eq_getElem?, List.getElem?_eq_getElem hlastlen]
            at h2
          exact Option.some_inj.mp h2
        have hk₀m : k₀ ≠ P.length - 1 := by
          intro heq
          apply hne
          subst heq
          rw [← hk₀]
          exact hlast
        have hk₁len : k₀ + 1 < P.length := by omega
        have hq_get : P.get? (k₀ + 1) = some P[k₀ + 1] :=
          get?_eq_some_of_getElem P (k₀ + 1) hk₁len
        have hadjq : Adjacent cur.pos P[k₀ + 1] := by
          have := chain'_get?_adjacent hP.2.2.2 k₀ cur.pos P[k₀ + 1]
            (by rw [get?_eq_some_of_getElem P k₀ hk₀len, hk₀]) hq_get
          exact this
        have hq_walk : isWalkable grid (P[k₀ + 1]).x (P[k₀ + 1]).y = true :=
          hP.2.2.1 _ (List.getElem_mem hk₁len)
        have hq_ncl : P[k₀ + 1] ∉ closed := by
          rcases Nat.lt_or_ge j (k₀ + 1) with hlt | hge
          · exact hsuf (k₀ + 1) _ hlt hq_get
          · have : j = k₀ + 1 ∨ j ≤ k₀ := by omega
            rcases this with rfl | _
            · omega
            · exact hsuf (k₀ + 1) _ (by omega) hq_get
        have hq_necur : P[k₀ + 1] ≠ cur.pos := by
          intro heq
          have heq2 : P[k₀ + 1] = P[k₀] := by rw [heq, hk₀]
          have := (hnd.getElem_inj_iff).mp heq2
          omega
        have hq_ncl' : P[k₀ + 1] ∉ cur.pos :: closed := by
          simp only [List.mem_cons, not_or]
          exact ⟨hq_necur, hq_ncl⟩
        have hq_nbr : P[k₀ + 1] ∈ getNeighbors grid cur.pos :=
          (mem_getNeighbors_iff grid cur.pos _).mpr ⟨hq_walk, hadjq⟩
        obtain ⟨n₂, hn₂, hp₂, hg₂⟩ := relaxFold_cover endP (cur.pos :: closed)
          cur (getNeighbors grid cur.pos) (opens.eraseIdx i) _ hq_nbr hq_ncl'
        refine ⟨k₀ + 1, n₂, hn₂, by rw [hp₂]; exact hq_get, ?_, ?_⟩
        · omega
        · intro k q hk hq
          have hkq := hsuf k q (by omega) hq
          obtain ⟨hklen, hPk⟩ := get?_val hq
          have hqne : q ≠ cur.pos := by
            intro heq
            have heq2 : P[k] = P[k₀] := by rw [hPk, heq, hk₀]
            have := (hnd.getElem_inj_iff).mp heq2
            omega
          simp only [List.mem_cons, not_or]
          exact ⟨hqne, hkq⟩
    · have hne' : n ≠ cur := by
        intro heq
        subst heq
        exact hmemP (hPj ▸ List.getElem_mem hjlen)
      obtain ⟨n₂, hn₂, hp₂, hg₂⟩ := relaxFold_mono endP (cur.pos :: closed)
        cur (getNeighbors grid cur.pos) (opens.eraseIdx i) n (hmem' n hn hne')
      refine ⟨j, n₂, hn₂, by rw [hp₂]; exact hj, le_trans hg₂ hg, ?_⟩
      intro k q hk hq
      have hkq := hsuf k q hk hq
      obtain ⟨hklen, hPk⟩ := get?_val hq
      have hqne : q ≠ cur.pos := by
        intro heq
        exact hmemP (heq ▸ hPk ▸ List.getElem_mem hklen)
      simp only [List.mem_cons, not_or]
      exact ⟨hqne, hkq⟩

end BotArena

namespace BotArena

theorem isWalkable_bounds (grid : Grid) (x y : Int)
    (h : isWalkable grid x y = true) :
    0 ≤ x ∧ 0 ≤ y ∧ y.toNat < grid.length ∧ x.toNat < headLen grid := by
  unfold isWalkable at h
  split at h
  · exact absurd h (by simp)
  · split at h
    · exact absurd h (by simp)
    · rename_i h1 h2
      push_neg at h1
      omega

theorem encode_inj (H a b c d : Nat) (hb : b < H) (hd : d < H)
    (h : a * H + b = c * H + d) : a = c ∧ b = d := by
  have hH : 0 < H := by omega
  have h1 : (a * H + b) / H = a := by
    rw [Nat.mul_comm a H, Nat.mul_add_div hH, Nat.div_eq_of_lt hb,
      Nat.add_zero]
  have h2 : (c * H + d) / H = c := by
    rw [Nat.mul_comm c H, Nat.mul_add_div hH, Nat.div_eq_of_lt hd,
      Nat.add_zero]
  have h3 : (a * H + b) % H = b := by
    rw [Nat.mul_comm a H, Nat.mul_add_mod, Nat.mod_eq_of_lt hb]
  have h4 : (c * H + d) % H = d := by
    rw [Nat.mul_comm c H, Nat.mul_add_mod, Nat.mod_eq_of_lt hd]
  constructor
  · rw [← h1, ← h2, h]
  · rw [← h3, ← h4, h]

/-- A nodup list of walkable closed cells cannot exceed the number of
cells of the grid. -/
theorem closed_length_bound (grid : Grid) (closed : List Pos)
    (hnd : closed.Nodup)
    (hw : ∀ p ∈ closed, isWalkable grid p.x p.y = true) :
    closed.length ≤ grid.length * headLen grid := by
  have hinj : ∀ p ∈ closed, ∀ q ∈ closed,
      p.y.toNat * headLen grid + p.x.toNat
        = q.y.toNat * headLen grid + q.x.toNat → p = q := by
    intro p hp q hq h
    obtain ⟨hpx, hpy, hpyl, hpxl⟩ := isWalkable_bounds grid p.x p.y (hw p hp)
    obtain ⟨hqx, hqy, hqyl, hqxl⟩ := isWalkable_bounds grid q.x q.y (hw q hq)
    obtain ⟨h1, h2⟩ := encode_inj (headLen grid) _ _ _ _ hpxl hqxl h
    exact Pos.ext' (by omega) (by omega)
  have hmap_nd : (closed.map fun p =>
      p.y.toNat * headLen grid + p.x.toNat).Nodup :=
    hnd.map_on hinj
  have hsub : (closed.map fun p =>
      p.y.toNat * headLen grid + p.x.toNat).toFinset
      ⊆ Finset.range (grid.length * headLen grid) := by
    intro a ha
    rw [List.mem_toFinset, List.mem_map] at ha
    obtain ⟨p, hp, rfl⟩ := ha
    obtain ⟨hpx, hpy, hpyl, hpxl⟩ := isWalkable_bounds grid p.x p.y (hw p hp)
    rw [Finset.mem_range]
    calc p.y.toNat * headLen grid + p.x.toNat
        < p.y.toNat * headLen grid + headLen grid := by omega
      _ = (p.y.toNat + 1) * headLen grid := by ring
      _ ≤ grid.length * headLen grid := by
          exact Nat.mul_le_mul_right _ (by omega)
  calc closed.length
      = (closed.map fun p => p.y.toNat * headLen grid + p.x.toNat).length :=
        (List.length_map _ _).symm
    _ = (closed.map fun p =>
        p.y.toNat * headLen grid + p.x.toNat).toFinset.card :=
        (List.toFinset_card_of_nodup hmap_nd).symm
    _ ≤ (Finset.range (grid.length * headLen grid)).card :=
        Finset.card_le_card hsub
    _ = grid.length * headLen grid := Finset.card_range _

end BotArena

namespace BotArena

theorem astarLoop_cons (grid : Grid) (endP : Pos) (fuel : Nat)
    (o : PathNode) (os : List PathNode) (closed : List Pos) :
    astarLoop grid endP (fuel + 1) (o :: os) closed =
      (if ((o :: os).getD (findLowestF (o :: os)) ⟨0, 0, 0, 0, 0, []⟩).x
            = endP.x
          ∧ ((o :: os).getD (findLowestF (o :: os)) ⟨0, 0, 0, 0, 0, []⟩).y
            = endP.y
       then ((o :: os).getD (findLowestF (o :: os)) ⟨0, 0, 0, 0, 0, []⟩).path
       else astarLoop grid endP fuel
         (relaxAll grid endP
           (((o :: os).getD (findLowestF (o :: os)) ⟨0, 0, 0, 0, 0, []⟩).pos
             :: closed)
           ((o :: os).getD (findLowestF (o :: os)) ⟨0, 0, 0, 0, 0, []⟩)
           ((o :: os).eraseIdx (findLowestF (o :: os))))
         (((o :: os).getD (findLowestF (o :: os)) ⟨0, 0, 0, 0, 0, []⟩).pos
           :: closed)) := rfl

/-- Correctness of the fueled A* loop under the invariant: with enough
fuel and some nodup valid path witnessing reachability, the loop returns
a valid start-to-end path no longer than any nodup valid path. -/
theorem astarLoop_spec (grid : Grid) (start endP : Pos) :
    ∀ (fuel : Nat) (opens : List PathNode) (closed : List Pos),
    AInv grid start endP opens closed →
    grid.length * headLen grid + 1 ≤ closed.length + fuel →
    (∃ P, ValidPath grid P start endP ∧ P.Nodup) →
    astarLoop grid endP fuel opens closed ≠ [] ∧
    ValidPath grid (astarLoop grid endP fuel opens closed) start endP ∧
    ∀ Q, ValidPath grid Q start endP → Q.Nodup →
      (astarLoop grid endP fuel opens closed).length ≤ Q.length := by
  intro fuel
  induction fuel with
  | zero =>
    intro opens closed hInv hfuel _
    exfalso
    have := closed_length_bound grid closed hInv.2.1 hInv.2.2.1
    omega
  | succ fuel ih =>
    intro opens closed hInv hfuel hreach
    match opens with
    | [] =>
      exfalso
      obtain ⟨P, hP, hPnd⟩ := hreach
      obtain ⟨_, n, hn, _, _, _⟩ := hInv.2.2.2.2 P hP hPnd
      exact (List.not_mem_nil n) hn
    | o :: os =>
      rw [astarLoop_cons]
      have hspec := findLowestF_spec ⟨0, 0, 0, 0, 0, []⟩ o os
      set i := findLowestF (o :: os) with hi_def
      set cur := (o :: os).getD i ⟨0, 0, 0, 0, 0, []⟩ with hcur_def
      have hi : i < (o :: os).length := hspec.1
      have hcur_eq : cur = (o :: os)[i] := by
        rw [hcur_def, List.getD_eq_getElem?_getD, List.getElem?_eq_getElem hi]
        rfl
      have hcur_mem : cur ∈ o :: os := by
        rw [hcur_eq]
        exact List.getElem_mem hi
      by_cases hend : cur.x = endP.x ∧ cur.y = endP.y
      · rw [if_pos hend]
        have hpos_eq : cur.pos = endP := Pos.ext' hend.1 hend.2
        obtain ⟨hvalid, hlen, hh, hf⟩ := hInv.1.1 cur hcur_mem
        rw [hpos_eq] at hvalid
        refine ⟨validPath_ne_nil hvalid, hvalid, ?_⟩
        intro Q hQ hQnd
        obtain ⟨j, n, hn, hj, hg, _⟩ := hInv.2.2.2.2 Q hQ hQnd
        have hjlen : j < Q.length := get?_bound hj
        have hQpos : 0 < Q.length := by omega
        have hlastlen : Q.length - 1 < Q.length := by omega
        have hlastget : Q.get? (Q.length - 1) = some endP := by
          have h2 := hQ.2.1
          rw [List.getLast?_eq_getElem?, List.getElem?_eq_getElem hlastlen]
            at h2
          rw [get?_eq_some_of_getElem Q (Q.length - 1) hlastlen,
            Option.some_inj.mp h2]
        have hH := chain'_heuristic hQ.2.2.2 endP (Q.length - 1) j n.pos endP
          (by omega) hj hlastget
        rw [heuristic_self] at hH
        obtain ⟨_, _, hnh, hnf⟩ := hInv.1.1 n hn
        have hfmin := hspec.2 n hn
        have hcurh : cur.h = 0 := by rw [hh, hpos_eq, heuristic_self]
        have : cur.g ≤ Q.length - 1 := by omega
        omega
      · rw [if_neg hend]
        have hne : cur.pos ≠ endP := by
          intro h
          exact hend ⟨congrArg Pos.x h, congrArg Pos.y h⟩
        have hInv' := AInv_step grid start endP o os closed hInv hne
        rw [← hi_def, ← hcur_def] at hInv'
        exact ih (relaxAll grid endP (cur.pos :: closed) cur
            ((o :: os).eraseIdx i)) (cur.pos :: closed) hInv'
          (by simp only [List.length_cons]; omega) hreach

end BotArena

namespace BotArena

theorem astarLoop_sound (grid : Grid) (start endP : Pos) :
    ∀ (fuel : Nat) (opens : List PathNode) (closed : List Pos),
    AInv grid start endP opens closed →
    astarLoop grid endP fuel opens closed ≠ [] →
    ValidPath grid (astarLoop grid endP fuel opens closed) start endP := by
  intro fuel
  induction fuel with
  | zero =>
    intro opens closed _ hne
    exact absurd rfl hne
  | succ fuel ih =>
    intro opens closed hInv hne
    match opens with
    | [] => exact absurd rfl hne
    | o :: os =>
      rw [astarLoop_cons] at hne ⊢
      set i := findLowestF (o :: os) with hi_def
      set cur := (o :: os).getD i ⟨0, 0, 0, 0, 0, []⟩ with hcur_def
      have hi : i < (o :: os).length :=
        (findLowestF_spec ⟨0, 0, 0, 0, 0, []⟩ o os).1
      have hcur_eq : cur = (o :: os)[i] := by
        rw [hcur_def, List.getD_eq_getElem?_getD, List.getElem?_eq_getElem hi]
        rfl
      have hcur_mem : cur ∈ o :: os := by
        rw [hcur_eq]
        exact List.getElem_mem hi
      by_cases hend : cur.x = endP.x ∧ cur.y = endP.y
      · rw [if_pos hend]
        have hpos_eq : cur.pos = endP := Pos.ext' hend.1 hend.2
        obtain ⟨hvalid, _, _, _⟩ := hInv.1.1 cur hcur_mem
        rw [hpos_eq] at hvalid
        exact hvalid
      · rw [if_neg hend] at hne ⊢
        have hne' : cur.pos ≠ endP := by
          intro h
          exact hend ⟨congrArg Pos.x h, congrArg Pos.y h⟩
        have hInv' := AInv_step grid start endP o os closed hInv hne'
        rw [← hi_def, ← hcur_def] at hInv'
        exact ih _ _ hInv' hne

theorem findPath_spec (grid : Grid) (start endP : Pos)
    (hreach : ∃ P, ValidPath grid P start endP) :
    findPath grid start endP ≠ [] ∧
    ValidPath grid (findPath grid start endP) start endP ∧
    ∀ Q, ValidPath grid Q start endP →
      (findPath grid start endP).length ≤ Q.length := by
  obtain ⟨P, hP⟩ := hreach
  have hs : isWalkable grid start.x start.y = true :=
    validPath_start_walkable hP
  have he : isWalkable grid endP.x endP.y = true := validPath_end_walkable hP
  have hguard : ¬ (¬ isWalkable grid start.x start.y = true
      ∨ ¬ isWalkable grid endP.x endP.y = true) := by
    push_neg
    exact ⟨hs, he⟩
  have hrun : findPath grid start endP
      = astarLoop grid endP (grid.length * headLen grid + 1)
        [⟨start.x, start.y, 0, heuristic start endP, heuristic start endP,
          [start]⟩] [] := by
    unfold findPath
    rw [if_neg hguard]
  obtain ⟨P', hP', hP'nd, _⟩ := validPath_simplify P.length P le_rfl hP
  have hmain := astarLoop_spec grid start endP
    (grid.length * headLen grid + 1) _ []
    (AInv_initial grid start endP hs) (by simp) ⟨P', hP', hP'nd⟩
  rw [hrun]
  refine ⟨hmain.1, hmain.2.1, ?_⟩
  intro Q hQ
  obtain ⟨Q', hQ', hQ'nd, hQ'len⟩ := validPath_simplify Q.length Q le_rfl hQ
  exact le_trans (hmain.2.2 Q' hQ' hQ'nd) hQ'len

theorem findPath_sound (grid : Grid) (start endP : Pos)
    (hne : findPath grid start endP ≠ []) :
    ValidPath grid (findPath grid start endP) start endP := by
  by_cases hguard : ¬ isWalkable grid start.x start.y = true
      ∨ ¬ isWalkable grid endP.x endP.y = true
  · exfalso
    apply hne
    unfold findPath
    rw [if_pos hguard]
  · have hguard2 := hguard
    push_neg at hguard2
    have hrun : findPath grid start endP
        = astarLoop grid endP (grid.length * headLen grid + 1)
          [⟨start.x, start.y, 0, heuristic start endP, heuristic start endP,
            [start]⟩] [] := by
      unfold findPath
      rw [if_neg hguard]
    rw [hrun] at hne ⊢
    exact astarLoop_sound grid start endP _ _ _
      (AInv_initial grid start endP hguard2.1) hne

theorem findPath_eq_nil_iff (grid : Grid) (start endP : Pos) :
    findPath grid start endP = [] ↔ ¬ ∃ P, ValidPath grid P start endP := by
  constructor
  · intro h hex
    exact (findPath_spec grid start endP hex).1 h
  · intro hnex
    by_contra hne
    exact hnex ⟨findPath grid start endP, findPath_sound grid start endP hne⟩

theorem getPathLength_def (grid : Grid) (start endP : Pos) :
    getPathLength grid start endP =
      (if (findPath grid start endP).length > 0
       then ((findPath grid start endP).length : Int) - 1 else -1) := rfl

theorem getPathLength_eq_neg_one_iff (grid : Grid) (start endP : Pos) :
    getPathLength grid start endP = -1
      ↔ ¬ ∃ P, ValidPath grid P start endP := by
  rw [getPathLength_def]
  by_cases hex : ∃ P, ValidPath grid P start endP
  · have hne := (findPath_spec grid start endP hex).1
    have hlen : 0 < (findPath grid start endP).length :=
      List.length_pos.mpr hne
    rw [if_pos hlen]
    constructor
    · intro h
      exfalso
      omega
    · intro h
      exact absurd hex h
  · have hnil : findPath grid start endP = [] :=
      (findPath_eq_nil_iff grid start endP).mpr hex
    rw [hnil]
    simp only [List.length_nil, gt_iff_lt, Nat.lt_irrefl, if_false]
    constructor
    · intro _
      exact hex
    · intro _
      trivial

theorem hasPath_true_iff (grid : Grid) (start endP : Pos) :
    hasPath grid start endP = true ↔ ∃ P, ValidPath grid P start endP := by
  unfold hasPath
  constructor
  · intro h
    have hne : findPath grid start endP ≠ [] := of_decide_eq_true h
    by_contra hnex
    exact hne ((findPath_eq_nil_iff grid start endP).mpr hnex)
  · intro hex
    exact decide_eq_true (findPath_spec grid start endP hex).1

end BotArena

namespace BotArena

/-- Obstacle-free 4×4 grid of the C2 scenario: start mark at (0,0), goal
mark at (3,3), no obstacles. -/
def grid44 : Grid := [[2, 0, 0, 0], [0, 0, 0, 0], [0, 0, 0, 0], [0, 0, 0, 3]]

/-- C2: whenever a four-directional walkable route from start to goal
exists, findPath returns a sequence of cells from start to goal inclusive
in which consecutive cells are cardinally adjacent and every cell is
walkable, of minimal length among all such routes; it returns the empty
sequence exactly when no route exists, and getPathLength is -1 exactly in
that case.  On the obstacle-free 4×4 grid, getPathLength from (0,0) to
(3,3) is 6 and hasPath is true. -/
theorem C2_findPath_shortest :
    (∀ (grid : Grid) (start endP : Pos),
      ((∃ P, ValidPath grid P start endP) →
        ValidPath grid (findPath grid start endP) start endP ∧
        ∀ Q, ValidPath grid Q start endP →
          (findPath grid start endP).length ≤ Q.length) ∧
      (findPath grid start endP = [] ↔ ¬ ∃ P, ValidPath grid P start endP) ∧
      (getPathLength grid start endP = -1 ↔
        ¬ ∃ P, ValidPath grid P start endP)) ∧
    getPathLength grid44 ⟨0, 0⟩ ⟨3, 3⟩ = 6 ∧
    hasPath grid44 ⟨0, 0⟩ ⟨3, 3⟩ = true := by
  refine ⟨?_, by decide, by decide⟩
  intro grid start endP
  refine ⟨?_, findPath_eq_nil_iff grid start endP,
    getPathLength_eq_neg_one_iff grid start endP⟩
  intro hex
  exact ⟨(findPath_spec grid start endP hex).2.1,
    (findPath_spec grid start endP hex).2.2⟩

/-- Witness for C2: on the 4×4 grid an explicit route exists, and the
theorem yields validity of the returned path at that concrete input. -/
theorem C2_witness :
    ValidPath grid44 (findPath grid44 ⟨0, 0⟩ ⟨3, 3⟩) ⟨0, 0⟩ ⟨3, 3⟩ :=
  ((C2_findPath_shortest.1 grid44 ⟨0, 0⟩ ⟨3, 3⟩).1
    ⟨[⟨0, 0⟩, ⟨1, 0⟩, ⟨2, 0⟩, ⟨3, 0⟩, ⟨3, 1⟩, ⟨3, 2⟩, ⟨3, 3⟩],
      by decide⟩).1

end BotArena

namespace BotArena

theorem replicate_cell (rows cols x y : Nat) (hx : x < cols) (hy : y < rows) :
    cellAtN (List.replicate rows (List.replicate cols (0 : Nat))) x y
      = some 0 := by
  unfold cellAtN
  rw [List.get?_eq_getElem?, List.getElem?_replicate, if_pos hy]
  simp only [Option.some_bind]
  rw [List.get?_eq_getElem?, List.getElem?_replicate, if_pos hx]

/-- Every in-range cell of the freshly initialised grid is 0, 2 or 3. -/
theorem initialGrid_cell (rows cols x y : Nat) (hx : x < cols)
    (hy : y < rows) :
    ∃ c, cellAtN (initialGrid rows cols) x y = some c ∧ c ≠ 1 := by
  have hbase := replicate_cell rows cols x y hx hy
  unfold initialGrid
  by_cases hstart : x = 0 ∧ y = 0
  · obtain ⟨rfl, rfl⟩ := hstart
    have h2 : cellAtN (setCell (List.replicate rows (List.replicate cols 0))
        0 0 2) 0 0 = some 2 := cellAtN_setCell_self _ _ _ _ _ hbase
    by_cases hgoal : (0 : Nat) = cols - 1 ∧ (0 : Nat) = rows - 1
    · obtain ⟨hx0, hy0⟩ := hgoal
      refine ⟨3, ?_, by omega⟩
      rw [← hx0, ← hy0]
      exact cellAtN_setCell_self _ _ _ _ _ h2
    · refine ⟨2, ?_, by omega⟩
      rw [cellAtN_setCell_ne _ _ _ _ _ _ hgoal]
      exact h2
  · have h0 : cellAtN (setCell (List.replicate rows (List.replicate cols 0))
        0 0 2) x y = some 0 := by
      rw [cellAtN_setCell_ne _ _ _ _ _ _ hstart]
      exact hbase
    by_cases hgoal : x = cols - 1 ∧ y = rows - 1
    · obtain ⟨rfl, rfl⟩ := hgoal
      refine ⟨3, ?_, by omega⟩
      exact cellAtN_setCell_self _ _ _ _ _ h0
    · refine ⟨0, ?_, by omega⟩
      rw [cellAtN_setCell_ne _ _ _ _ _ _ hgoal]
      exact h0

theorem cellAtN_none_of_oob (g : Grid) (x y : Nat) (cols : Nat)
    (hlen : ∀ row ∈ g, row.length = cols)
    (h : ¬(x < cols ∧ y < g.length)) : cellAtN g x y = none := by
  unfold cellAtN
  by_cases hy : y < g.length
  · rw [List.get?_eq_getElem?, List.getElem?_eq_getElem hy]
    simp only [Option.some_bind]
    have hx : ¬ x < cols := fun hx => h ⟨hx, hy⟩
    rw [List.get?_eq_getElem?, List.getElem?_eq_none]
    have := hlen (g[y]) (List.getElem_mem hy)
    omega
  · rw [List.get?_eq_getElem?, List.getElem?_eq_none (by omega),
      Option.none_bind]

theorem cellAtN_of_mem (g : Grid) (row : List Nat) (c : Nat)
    (hrow : row ∈ g) (hc : c ∈ row) : ∃ x y, cellAtN g x y = some c := by
  obtain ⟨y, hy, rfl⟩ := List.mem_iff_getElem.mp hrow
  obtain ⟨x, hx, rfl⟩ := List.mem_iff_getElem.mp hc
  refine ⟨x, y, ?_⟩
  unfold cellAtN
  rw [List.get?_eq_getElem?, List.getElem?_eq_getElem hy]
  simp only [Option.some_bind]
  rw [List.get?_eq_getElem?, List.getElem?_eq_getElem hx]

theorem initialGrid_not_one (rows cols : Nat) :
    ∀ x y, cellAtN (initialGrid rows cols) x y ≠ some 1 := by
  intro x y
  by_cases hin : x < cols ∧ y < rows
  · obtain ⟨c, hc, hc1⟩ := initialGrid_cell rows cols x y hin.1 hin.2
    rw [hc]
    intro h
    exact hc1 (Option.some_inj.mp h)
  · rw [cellAtN_none_of_oob (initialGrid rows cols) x y cols
      (initialGrid_row_length rows cols)
      (by rw [initialGrid_length]; exact hin)]
    exact fun h => Option.noConfusion h

/-- With a grid of at least 2 rows and 2 columns the goal write does not
hit the start cell, so the start cell holds exactly the start mark. -/
theorem initialGrid_start2 (rows cols : Nat) (hr : 2 ≤ rows)
    (hc : 2 ≤ cols) :
    cellAtN (initialGrid rows cols) 0 0 = some 2 := by
  have hbase := replicate_cell rows cols 0 0 (by omega) (by omega)
  have h2 : cellAtN (setCell (List.replicate rows (List.replicate cols 0))
      0 0 2) 0 0 = some 2 := cellAtN_setCell_self _ _ _ _ _ hbase
  unfold initialGrid
  rw [cellAtN_setCell_ne _ _ _ _ _ _ (by omega)]
  exact h2

theorem initialGrid_goal (rows cols : Nat) (hr : 1 ≤ rows) (hc : 1 ≤ cols) :
    cellAtN (initialGrid rows cols) (cols - 1) (rows - 1) = some 3 := by
  have hbase := replicate_cell rows cols (cols - 1) (rows - 1)
    (by omega) (by omega)
  unfold initialGrid
  by_cases hstart : cols - 1 = 0 ∧ rows - 1 = 0
  · obtain ⟨h1, h2⟩ := hstart
    rw [h1, h2] at hbase ⊢
    exact cellAtN_setCell_self _ _ _ _ _
      (cellAtN_setCell_self _ _ _ _ _ hbase)
  · have h0 : cellAtN (setCell (List.replicate rows (List.replicate cols 0))
        0 0 2) (cols - 1) (rows - 1) = some 0 := by
      rw [cellAtN_setCell_ne _ _ _ _ _ _ hstart]
      exact hbase
    exact cellAtN_setCell_self _ _ _ _ _ h0

theorem cellAt_eq_cellAtN (g : Grid) (x y : Int) (hx : 0 ≤ x) (hy : 0 ≤ y) :
    cellAt g x y = cellAtN g x.toNat y.toNat := by
  unfold cellAt cellAtN
  rw [if_neg (by omega)]

theorem isWalkable_of_cell (g : Grid) (x y : Int)
    (hx : 0 ≤ x) (hy : 0 ≤ y) (hyl : y < (g.length : Int))
    (hxl : x < (headLen g : Int))
    (hcell : cellAt g x y ≠ some 1) :
    isWalkable g x y = true := by
  unfold isWalkable
  rw [if_neg (by omega), if_neg (by omega)]
  exact decide_eq_true hcell

end BotArena

namespace BotArena

/-- Number of obstacle cells (value 1) of a grid. -/
def countObstacles (g : Grid) : Nat :=
  (g.map fun row => row.countP fun c => c == 1).sum

theorem countP_set_le {α : Type} (p : α → Bool) :
    ∀ (l : List α) (x : Nat) (v : α),
      (l.set x v).countP p ≤ l.countP p + 1
  | [], _, _ => by simp
  | a :: t, 0, v => by
    simp only [List.set_cons_zero, List.countP_cons]
    by_cases hv : p v <;> by_cases ha : p a <;> simp [hv, ha] <;> omega
  | a :: t, x + 1, v => by
    simp only [List.set_cons_succ, List.countP_cons]
    have := countP_set_le p t x v
    by_cases ha : p a <;> simp [ha] <;> omega

theorem countObstacles_setCell_le (g : Grid) (x y : Nat) :
    countObstacles (setCell g x y 1) ≤ countObstacles g + 1 := by
  unfold countObstacles setCell
  induction g generalizing y with
  | nil => simp
  | cons r rs ih =>
    cases y with
    | zero =>
      simp only [List.getD_cons_zero, List.set_cons_zero, List.map_cons,
        List.sum_cons]
      have := countP_set_le (fun c => c == 1) r x 1
      omega
    | succ y' =>
      simp only [List.getD_cons_succ, List.set_cons_succ, List.map_cons,
        List.sum_cons]
      have := ih y'
      omega

theorem countObstacles_eq_zero_of_cells (g : Grid)
    (h : ∀ x y, cellAtN g x y ≠ some 1) : countObstacles g = 0 := by
  unfold countObstacles
  apply List.sum_eq_zero
  intro a ha
  rw [List.mem_map] at ha
  obtain ⟨row, hrow, rfl⟩ := ha
  rw [List.countP_eq_zero]
  intro c hc
  obtain ⟨x, y, hxy⟩ := cellAtN_of_mem g row c hrow hc
  have hne : c ≠ 1 := by
    intro h1
    subst h1
    exact h x y hxy
  simpa using hne

theorem countObstacles_initial (rows cols : Nat) :
    countObstacles (initialGrid rows cols) = 0 :=
  countObstacles_eq_zero_of_cells _ (initialGrid_not_one rows cols)

/-- The placement loop never pushes the obstacle count beyond the
requested total. -/
theorem obstacleLoop_count (rows cols n : Nat) (rand : Nat → Nat × Nat) :
    ∀ fuel placed k g, countObstacles g ≤ placed → placed ≤ n →
      countObstacles (obstacleLoop rows cols n rand fuel placed k g) ≤ n := by
  intro fuel
  induction fuel with
  | zero =>
    intro placed k g h1 h2
    exact le_trans h1 h2
  | succ f ih =>
    intro placed k g h1 h2
    unfold obstacleLoop
    dsimp only
    split
    · exact le_trans h1 h2
    · split
      · exact ih _ _ _ h1 h2
      · split
        · exact ih _ _ _ h1 h2
        · split
          · rename_i hplaced _ _ _
            refine ih _ _ _ ?_ (by omega)
            have := countObstacles_setCell_le g (rand k).1 (rand k).2
            omega
          · exact ih _ _ _ h1 h2

theorem generateGrid_count (rows cols n : Nat) (rand : Nat → Nat × Nat) :
    countObstacles (generateGrid rows cols n rand) ≤ n := by
  unfold generateGrid
  exact obstacleLoop_count rows cols n rand (n * 10) 0 0 _
    (by rw [countObstacles_initial]) (Nat.zero_le n)

/-- No obstacle ever lands in the start or goal buffer zone. -/
theorem generateGrid_buffer (rows cols n : Nat) (rand : Nat → Nat × Nat) :
    ∀ x y : Nat, (x ≤ 1 ∧ y ≤ 1) ∨ (cols - 2 ≤ x ∧ rows - 2 ≤ y) →
      cellAtN (generateGrid rows cols n rand) x y ≠ some 1 := by
  unfold generateGrid
  have h := obstacleLoop_preserves rows cols n rand
    (fun g => ∀ x y : Nat, (x ≤ 1 ∧ y ≤ 1) ∨ (cols - 2 ≤ x ∧ rows - 2 ≤ y) →
      cellAtN g x y ≠ some 1)
    (fun g x y hP hcell hbuf _ => by
      intro x' y' hbuf'
      by_cases hxy : x' = x ∧ y' = y
      · obtain ⟨rfl, rfl⟩ := hxy
        exact absurd hbuf' hbuf
      · rw [cellAtN_setCell_ne _ _ _ _ _ _ hxy]
        exact hP x' y' hbuf')
    (n * 10) 0 0 (initialGrid rows cols)
    (fun x y _ => initialGrid_not_one rows cols x y)
  exact h

/-- The result of the placement loop depends on the random stream only
through the draws of the at most `fuel` attempts it may make. -/
theorem obstacleLoop_rand_agree (rows cols n : Nat)
    (r1 r2 : Nat → Nat × Nat) :
    ∀ fuel placed k g, (∀ j, j < k + fuel → r1 j = r2 j) →
      obstacleLoop rows cols n r1 fuel placed k g
        = obstacleLoop rows cols n r2 fuel placed k g := by
  intro fuel
  induction fuel with
  | zero =>
    intro placed k g _
    rfl
  | succ f ih =>
    intro placed k g hag
    unfold obstacleLoop
    dsimp only
    have hk : r1 k = r2 k := hag k (by omega)
    rw [hk]
    have hag' : ∀ j, j < (k + 1) + f → r1 j = r2 j := by
      intro j hj
      exact hag j (by omega)
    split
    · rfl
    · split
      · exact ih _ _ _ hag'
      · split
        · exact ih _ _ _ hag'
        · split
          · exact ih _ _ _ hag'
          · exact ih _ _ _ hag'

/-- generateGrid makes at most 10·N placement attempts: its output is
fully determined by the first 10·N draws of the random stream. -/
theorem generateGrid_rand_agree (rows cols n : Nat)
    (r1 r2 : Nat → Nat × Nat) (h : ∀ j, j < n * 10 → r1 j = r2 j) :
    generateGrid rows cols n r1 = generateGrid rows cols n r2 := by
  unfold generateGrid
  exact obstacleLoop_rand_agree rows cols n r1 r2 (n * 10) 0 0 _
    (fun j hj => h j (by omega))

end BotArena

namespace BotArena

theorem initialGrid_headLen (rows cols : Nat) (hr : 1 ≤ rows) :
    headLen (initialGrid rows cols) = cols := by
  have hlen := initialGrid_length rows cols
  have hrow := initialGrid_row_length rows cols
  rcases hG : initialGrid rows cols with _ | ⟨r0, rest⟩
  · rw [hG] at hlen
    simp at hlen
    omega
  · rw [hG] at hrow
    show r0.length = cols
    exact hrow r0 (List.mem_cons_self _ _)

theorem initialGrid_walkable (rows cols : Nat) (hr : 1 ≤ rows) (x y : Int)
    (hx : 0 ≤ x) (hy : 0 ≤ y) (hxc : x < (cols : Int))
    (hyr : y < (rows : Int)) :
    isWalkable (initialGrid rows cols) x y = true := by
  apply isWalkable_of_cell _ _ _ hx hy
  · rw [initialGrid_length]
    exact hyr
  · rw [initialGrid_headLen rows cols hr]
    exact hxc
  · rw [cellAt_eq_cellAtN _ _ _ hx hy]
    exact initialGrid_not_one rows cols x.toNat y.toNat

/-- An explicit route in the fresh grid: along the top row, then down the
last column. -/
def borderPath (rows cols : Nat) : List Pos :=
  ((List.range cols).map fun (i : Nat) => (⟨(i : Int), 0⟩ : Pos)) ++
    ((List.range (rows - 1)).map
      fun (j : Nat) => (⟨(cols : Int) - 1, (j : Int) + 1⟩ : Pos))

theorem borderPath_valid (rows cols : Nat) (hr : 1 ≤ rows) (hc : 1 ≤ cols) :
    ValidPath (initialGrid rows cols) (borderPath rows cols) ⟨0, 0⟩
      ⟨(cols : Int) - 1, (rows : Int) - 1⟩ := by
  obtain ⟨c, rfl⟩ : ∃ c, cols = c + 1 := ⟨cols - 1, by omega⟩
  refine ⟨?_, ?_, ?_, ?_⟩
  · rw [borderPath, List.range_succ_eq_map]
    simp
  · rw [borderPath]
    rcases hrows : rows - 1 with _ | r
    · simp only [List.range_zero, List.map_nil, List.append_nil,
        List.range_succ, List.map_append, List.map_cons, List.map_nil]
      rw [List.getLast?_concat]
      refine congrArg some (Pos.ext' ?_ ?_)
      · show ((c : Int)) = ((c + 1 : Nat) : Int) - 1
        push_cast
        ring
      · show ((0 : Int)) = (rows : Int) - 1
        omega
    · rw [getLast?_append_right _ _ (by simp)]
      rw [List.range_succ, List.map_append, List.map_cons,
        List.map_nil, List.getLast?_concat]
      refine congrArg some (Pos.ext' rfl ?_)
      show ((r : Int)) + 1 = (rows : Int) - 1
      omega
  · intro p hp
    rw [borderPath, List.mem_append] at hp
    rcases hp with hp | hp
    · rw [List.mem_map] at hp
      obtain ⟨i, hi, rfl⟩ := hp
      rw [List.mem_range] at hi
      show isWalkable (initialGrid rows (c + 1)) (i : Int) 0 = true
      exact initialGrid_walkable rows (c + 1) hr i 0 (by omega) (by omega)
        (by exact_mod_cast hi) (by omega)
    · rw [List.mem_map] at hp
      obtain ⟨j, hj, rfl⟩ := hp
      rw [List.mem_range] at hj
      show isWalkable (initialGrid rows (c + 1))
        (((c + 1 : Nat) : Int) - 1) ((j : Int) + 1) = true
      exact initialGrid_walkable rows (c + 1) hr _ _ (by push_cast; omega)
        (by omega) (by push_cast; omega) (by push_cast; omega)
  · rw [borderPath, List.chain'_append]
    refine ⟨?_, ?_, ?_⟩
    · rw [List.chain'_map, List.chain'_range_succ]
      intro m _
      show Adjacent ⟨(m : Int), 0⟩ ⟨((m + 1 : Nat) : Int), 0⟩
      unfold Adjacent
      dsimp only
      push_cast
      omega
    · rcases hrows : rows - 1 with _ | r
      · simp
      · rw [List.chain'_map]
        rw [List.chain'_range_succ]
        intro m _
        show Adjacent ⟨(c + 1 : Nat) - 1, (m : Int) + 1⟩
          ⟨(c + 1 : Nat) - 1, ((m + 1 : Nat) : Int) + 1⟩
        unfold Adjacent
        dsimp only
        push_cast
        omega
    · intro x hx y hy
      rw [List.range_succ, List.map_append, List.map_cons, List.map_nil,
        List.getLast?_concat] at hx
      simp only [Option.mem_def, Option.some_inj] at hx
      subst hx
      rcases hrows : rows - 1 with _ | r
      · rw [hrows] at hy
        simp at hy
      · rw [hrows, List.range_succ_eq_map] at hy
        simp only [List.map_cons, List.head?_cons, Option.mem_def,
          Option.some_inj] at hy
        subst hy
        show Adjacent ⟨(c : Int), 0⟩ ⟨(c + 1 : Nat) - 1, (0 : Int) + 1⟩
        unfold Adjacent
        dsimp only
        push_cast
        omega

end BotArena

namespace BotArena

theorem initialGrid_hasPath (rows cols : Nat) (hr : 1 ≤ rows)
    (hc : 1 ≤ cols) :
    hasPath (initialGrid rows cols) ⟨0, 0⟩
      ⟨(cols : Int) - 1, (rows : Int) - 1⟩ = true :=
  (hasPath_true_iff _ _ _).mpr
    ⟨borderPath rows cols, borderPath_valid rows cols hr hc⟩

/-- Solvability is an invariant of the placement loop: a blocking
placement is rolled back. -/
theorem generateGrid_hasPath (rows cols n : Nat) (rand : Nat → Nat × Nat)
    (hr : 1 ≤ rows) (hc : 1 ≤ cols) :
    hasPath (generateGrid rows cols n rand) ⟨0, 0⟩
      ⟨(cols : Int) - 1, (rows : Int) - 1⟩ = true := by
  unfold generateGrid
  exact obstacleLoop_preserves rows cols n rand
    (fun g => hasPath g ⟨0, 0⟩ ⟨(cols : Int) - 1, (rows : Int) - 1⟩ = true)
    (fun g x y _ _ _ hpath => hpath)
    (n * 10) 0 0 _ (initialGrid_hasPath rows cols hr hc)

theorem generateGrid_goal_cell (rows cols n : Nat) (rand : Nat → Nat × Nat)
    (hr : 1 ≤ rows) (hc : 1 ≤ cols) :
    cellAtN (generateGrid rows cols n rand) (cols - 1) (rows - 1)
      = some 3 := by
  unfold generateGrid
  exact obstacleLoop_preserves rows cols n rand
    (fun g => cellAtN g (cols - 1) (rows - 1) = some 3)
    (fun g x y hP _ hbuf _ => by
      show cellAtN (setCell g x y 1) (cols - 1) (rows - 1) = some 3
      rw [cellAtN_setCell_ne _ _ _ _ _ _ ?_]
      · exact hP
      · rintro ⟨rfl, rfl⟩
        exact hbuf (Or.inr ⟨by omega, by omega⟩))
    (n * 10) 0 0 _ (initialGrid_goal rows cols hr hc)

/-- C3: for R ≥ 2 rows, C ≥ 2 columns and any requested obstacle count N,
generateGrid returns an R×C grid whose (0,0) cell carries the start mark
2 and whose (R-1,C-1) cell carries the goal mark 3, with at most N
obstacle cells, none of them inside the one-cell buffers around start
(x ≤ 1 and y ≤ 1) or goal (x ≥ C-2 and y ≥ R-2), on which a walkable
route from start to goal exists; and the grid depends on the random
stream only through its first 10·N draws, so at most 10·N placement
attempts are consumed. -/
theorem C3_generateGrid_solvable (rows cols n : Nat)
    (rand : Nat → Nat × Nat) (hr : 2 ≤ rows) (hc : 2 ≤ cols) :
    (generateGrid rows cols n rand).length = rows ∧
    (∀ row ∈ generateGrid rows cols n rand, row.length = cols) ∧
    cellAtN (generateGrid rows cols n rand) 0 0 = some 2 ∧
    cellAtN (generateGrid rows cols n rand) (cols - 1) (rows - 1)
      = some 3 ∧
    countObstacles (generateGrid rows cols n rand) ≤ n ∧
    (∀ x y : Nat, (x ≤ 1 ∧ y ≤ 1) ∨ (cols - 2 ≤ x ∧ rows - 2 ≤ y) →
      cellAtN (generateGrid rows cols n rand) x y ≠ some 1) ∧
    hasPath (generateGrid rows cols n rand) ⟨0, 0⟩
      ⟨(cols : Int) - 1, (rows : Int) - 1⟩ = true ∧
    (∀ rand2 : Nat → Nat × Nat, (∀ j, j < n * 10 → rand j = rand2 j) →
      generateGrid rows cols n rand = generateGrid rows cols n rand2) := by
  refine ⟨generateGrid_length rows cols n rand,
    generateGrid_row_length rows cols n rand, ?_,
    generateGrid_goal_cell rows cols n rand (by omega) (by omega),
    generateGrid_count rows cols n rand,
    generateGrid_buffer rows cols n rand,
    generateGrid_hasPath rows cols n rand (by omega) (by omega),
    fun rand2 h => generateGrid_rand_agree rows cols n rand rand2 h⟩
  rw [generateGrid_start_cell rows cols n rand]
  exact initialGrid_start2 rows cols hr hc

/-- Witness for C3 on a concrete 3×3 grid with one requested obstacle
and a fixed random stream. -/
theorem C3_witness :
    cellAtN (generateGrid 3 3 1 fun _ => (2, 0)) 0 0 = some 2 ∧
    countObstacles (generateGrid 3 3 1 fun _ => (2, 0)) ≤ 1 ∧
    hasPath (generateGrid 3 3 1 fun _ => (2, 0)) ⟨0, 0⟩
      ⟨(3 : Int) - 1, (3 : Int) - 1⟩ = true := by
  have h := C3_generateGrid_solvable 3 3 1 (fun _ => (2, 0))
    (by decide) (by decide)
  exact ⟨h.2.2.1, h.2.2.2.2.1, h.2.2.2.2.2.2.1⟩

end BotArena
